import Mathlib

/-!
# ssh-manager: the Bitwarden provider adapter (`internal/provider/bw.go`)

A shallow embedding of the Bitwarden adapter and of the library functions it
calls, followed by theorems about it.

Conventions of the embedding.

* A Go `string` and a Go `[]byte` are both a list of byte values (`Bytes`).
  Bytes are natural numbers; every library function below produces values
  below 256, and the bit operations of the Go sources (`<<`, `>>`, `&`, `|`
  on disjoint bits) are written with `*`, `/`, `%` and `+`.
* A Go pointer `*string` is an `Option Bytes`; dereferencing `nil` is the
  outcome `Result.panic`.
* A Go function returning `(value, error)` returns a `Result`: the value, the
  error, or a run-time panic.
* The external tool is an `Executor`: a function from the invocations made so
  far and the arguments of the current one to what the process prints and
  whether it failed.  The adapter records every invocation in `Bitwarden.log`.
-/

namespace SshManager

/-- A Go string or byte slice. -/
abbrev Bytes := List Nat

/-- The bytes of an ASCII literal. -/
def ascii (s : String) : Bytes := s.data.map Char.toNat

/-! ## `unicode/utf8` -/

namespace utf8

/-- The rune `utf8.RuneError`, U+FFFD. -/
def RuneError : Nat := 0xFFFD

/-- Go `utf8.DecodeRune`: the first rune of `p` and its width in bytes; an
invalid or short encoding gives `(RuneError, 1)`, the empty input
`(RuneError, 0)`.  The table `first` and `acceptRanges` of the Go source are
the comparisons on the first and second byte. -/
def DecodeRune : Bytes → Nat × Nat
  | [] => (RuneError, 0)
  | p0 :: rest =>
    if p0 < 0x80 then (p0, 1)
    else if p0 < 0xC2 then (RuneError, 1)
    else if p0 < 0xE0 then
      match rest with
      | b1 :: _ =>
        if 0x80 ≤ b1 ∧ b1 ≤ 0xBF then (p0 % 32 * 64 + b1 % 64, 2) else (RuneError, 1)
      | [] => (RuneError, 1)
    else if p0 < 0xF0 then
      match rest with
      | b1 :: b2 :: _ =>
        if (if p0 = 0xE0 then 0xA0 else 0x80) ≤ b1 ∧ b1 ≤ (if p0 = 0xED then 0x9F else 0xBF) then
          if 0x80 ≤ b2 ∧ b2 ≤ 0xBF then
            (p0 % 16 * 4096 + b1 % 64 * 64 + b2 % 64, 3)
          else (RuneError, 1)
        else (RuneError, 1)
      | _ => (RuneError, 1)
    else if p0 < 0xF5 then
      match rest with
      | b1 :: b2 :: b3 :: _ =>
        if (if p0 = 0xF0 then 0x90 else 0x80) ≤ b1 ∧ b1 ≤ (if p0 = 0xF4 then 0x8F else 0xBF) then
          if 0x80 ≤ b2 ∧ b2 ≤ 0xBF then
            if 0x80 ≤ b3 ∧ b3 ≤ 0xBF then
              (p0 % 8 * 262144 + b1 % 64 * 4096 + b2 % 64 * 64 + b3 % 64, 4)
            else (RuneError, 1)
          else (RuneError, 1)
        else (RuneError, 1)
      | _ => (RuneError, 1)
    else (RuneError, 1)

/-- Go `utf8.AppendRune` on an empty buffer: the UTF-8 encoding of `r`;
surrogates and values past U+10FFFF encode as U+FFFD. -/
def EncodeRune (r : Nat) : Bytes :=
  if r ≤ 0x7F then [r]
  else if r ≤ 0x7FF then [0xC0 + r / 64, 0x80 + r % 64]
  else if 0x10FFFF < r ∨ (0xD800 ≤ r ∧ r ≤ 0xDFFF) then [0xEF, 0xBF, 0xBD]
  else if r ≤ 0xFFFF then [0xE0 + r / 4096, 0x80 + r / 64 % 64, 0x80 + r % 64]
  else [0xF0 + r / 262144, 0x80 + r / 4096 % 64, 0x80 + r / 64 % 64, 0x80 + r % 64]

/-- The loop of Go `utf8.Valid`, with the number of remaining iterations. -/
def validLoop : Nat → Bytes → Bool
  | _, [] => true
  | 0, _ :: _ => false
  | fuel + 1, p0 :: rest =>
    if (DecodeRune (p0 :: rest)).1 = RuneError ∧ (DecodeRune (p0 :: rest)).2 = 1 then false
    else validLoop fuel ((p0 :: rest).drop (DecodeRune (p0 :: rest)).2)

/-- Go `utf8.Valid`: `p` consists entirely of valid UTF-8 encoded runes. -/
def Valid (p : Bytes) : Bool := validLoop p.length p

end utf8

/-! ## `encoding/base64`, the standard padded encoding -/

namespace base64

/-- The alphabet of `base64.StdEncoding`,
`ABCDEFGHIJKLMNOPQRSTUVWXYZabcdefghijklmnopqrstuvwxyz0123456789+/`, as a
function of the index. -/
def encodeStd (i : Nat) : Nat :=
  if i < 26 then 65 + i
  else if i < 52 then 71 + i
  else if i < 62 then i - 4
  else if i = 62 then 43
  else 47

/-- The `decodeMap` of `base64.StdEncoding`: the index of an alphabet
character, `none` for every other byte. -/
def decodeMap (c : Nat) : Option Nat :=
  if 65 ≤ c ∧ c ≤ 90 then some (c - 65)
  else if 97 ≤ c ∧ c ≤ 122 then some (c - 71)
  else if 48 ≤ c ∧ c ≤ 57 then some (c + 4)
  else if c = 43 then some 62
  else if c = 47 then some 63
  else none

/-- Go `base64.StdEncoding.EncodeToString`. -/
def EncodeToString : Bytes → Bytes
  | [] => []
  | [a] =>
    [encodeStd (a * 65536 / 262144 % 64), encodeStd (a * 65536 / 4096 % 64), 61, 61]
  | [a, b] =>
    [encodeStd ((a * 65536 + b * 256) / 262144 % 64),
     encodeStd ((a * 65536 + b * 256) / 4096 % 64),
     encodeStd ((a * 65536 + b * 256) / 64 % 64), 61]
  | a :: b :: c :: rest =>
    encodeStd ((a * 65536 + b * 256 + c) / 262144 % 64) ::
    encodeStd ((a * 65536 + b * 256 + c) / 4096 % 64) ::
    encodeStd ((a * 65536 + b * 256 + c) / 64 % 64) ::
    encodeStd ((a * 65536 + b * 256 + c) % 64) :: EncodeToString rest

/-- The quanta of Go `Encoding.Decode` once line breaks are dropped: four
alphabet characters give three bytes; the last quantum may end in one or two
`=` and gives two bytes or one; anything else is a `CorruptInputError`
(`none`).  The encoding is not strict: the unused low bits of a padded quantum
are not checked. -/
def decodeQuanta : Bytes → Option Bytes
  | [] => some []
  | a :: b :: c :: d :: rest =>
    if d = 61 ∧ rest = [] then
      if c = 61 then
        match decodeMap a, decodeMap b with
        | some x, some y => some [(x * 262144 + y * 4096) / 65536 % 256]
        | _, _ => none
      else
        match decodeMap a, decodeMap b, decodeMap c with
        | some x, some y, some z =>
          some [(x * 262144 + y * 4096 + z * 64) / 65536 % 256,
                (x * 262144 + y * 4096 + z * 64) / 256 % 256]
        | _, _, _ => none
    else
      match decodeMap a, decodeMap b, decodeMap c, decodeMap d, decodeQuanta rest with
      | some x, some y, some z, some w, some out =>
        some ((x * 262144 + y * 4096 + z * 64 + w) / 65536 % 256 ::
              (x * 262144 + y * 4096 + z * 64 + w) / 256 % 256 ::
              (x * 262144 + y * 4096 + z * 64 + w) % 256 :: out)
      | _, _, _, _, _ => none
  | _ => none

/-- Go `base64.StdEncoding.DecodeString`: carriage returns and line feeds are
ignored wherever they stand; `none` is a `CorruptInputError`. -/
def DecodeString (s : Bytes) : Option Bytes :=
  decodeQuanta (s.filter (fun c => c != 10 && c != 13))

end base64

/-! ## `strings`, `strconv` and `fmt` -/

/-- Go `strings.Join`. -/
def Join : List Bytes → Bytes → Bytes
  | [], _ => []
  | [a], _ => a
  | a :: b :: rest, sep => a ++ sep ++ Join (b :: rest) sep

namespace strconv

/-- The digit table `0123456789abcdef`. -/
def lowerhex (n : Nat) : Nat := if n < 10 then 48 + n else 87 + n

/-- Go `strconv.IsPrint`.  Up to U+00FF the Go source decides by comparison;
above, it searches Unicode tables, which are the parameter `table`. -/
def IsPrint (table : Nat → Bool) (r : Nat) : Bool :=
  if r ≤ 0xFF then
    if 0x20 ≤ r ∧ r ≤ 0x7E then true
    else if 0xA1 ≤ r ∧ r ≤ 0xFF then r != 0xAD
    else false
  else table r

/-- Go `strconv.appendEscapedRune` with the double quote, not ASCII-only and
not graphic-only: what `%q` writes for one rune. -/
def appendEscapedRune (table : Nat → Bool) (r : Nat) : Bytes :=
  if r = 34 ∨ r = 92 then [92, r]
  else if IsPrint table r then utf8.EncodeRune r
  else if r = 7 then [92, 97]
  else if r = 8 then [92, 98]
  else if r = 12 then [92, 102]
  else if r = 10 then [92, 110]
  else if r = 13 then [92, 114]
  else if r = 9 then [92, 116]
  else if r = 11 then [92, 118]
  else if r < 32 ∨ r = 0x7F then [92, 120, lowerhex (r / 16 % 16), lowerhex (r % 16)]
  else if 0x10FFFF < r ∨ (0xD800 ≤ r ∧ r ≤ 0xDFFF) then ascii "\\ufffd"
  else if r < 0x10000 then
    [92, 117, lowerhex (r / 4096 % 16), lowerhex (r / 256 % 16),
     lowerhex (r / 16 % 16), lowerhex (r % 16)]
  else
    [92, 85, lowerhex (r / 268435456 % 16), lowerhex (r / 16777216 % 16),
     lowerhex (r / 1048576 % 16), lowerhex (r / 65536 % 16),
     lowerhex (r / 4096 % 16), lowerhex (r / 256 % 16),
     lowerhex (r / 16 % 16), lowerhex (r % 16)]

/-- The loop of Go `strconv.appendQuotedWith`, with the number of remaining
iterations: a byte that is no valid UTF-8 is written `\xNN`. -/
def quoteLoop (table : Nat → Bool) : Nat → Bytes → Bytes
  | _, [] => []
  | 0, _ :: _ => []
  | fuel + 1, c :: s =>
    if c < 0x80 then appendEscapedRune table c ++ quoteLoop table fuel s
    else if (utf8.DecodeRune (c :: s)).2 = 1 ∧ (utf8.DecodeRune (c :: s)).1 = utf8.RuneError then
      [92, 120, lowerhex (c / 16 % 16), lowerhex (c % 16)] ++ quoteLoop table fuel s
    else
      appendEscapedRune table (utf8.DecodeRune (c :: s)).1 ++
        quoteLoop table fuel ((c :: s).drop (utf8.DecodeRune (c :: s)).2)

/-- Go `strconv.Quote`, the rendering of a string under the verb `%q`. -/
def Quote (table : Nat → Bool) (s : Bytes) : Bytes :=
  34 :: quoteLoop table s.length s ++ [34]

end strconv

/-- Go `fmt.Sprintf` for string operands and the verbs `%q`, `%s` and `%v`. -/
def Sprintf (table : Nat → Bool) : Bytes → List Bytes → Bytes
  | 37 :: 113 :: rest, a :: args => strconv.Quote table a ++ Sprintf table rest args
  | 37 :: 115 :: rest, a :: args => a ++ Sprintf table rest args
  | 37 :: 118 :: rest, a :: args => a ++ Sprintf table rest args
  | c :: rest, args => c :: Sprintf table rest args
  | [], _ => []

/-! ## Errors -/

/-- The errors of `encoding/json` and `encoding/base64` that reach the
adapter. -/
inductive LibError where
  | jsonSyntaxError
  | jsonUnmarshalTypeError
  | base64CorruptInputError
  deriving DecidableEq, Repr

/-- The error values the adapter returns.  `Errorf`, `Wrap` and `Wrapf` are
those of `github.com/pkg/errors`. -/
inductive Err where
  /-- Modelled from the spec: the type `ExecutionFailedError` (declared outside
  the given sources), carrying the command line and the error text. -/
  | ExecutionFailedError (Command Message : Bytes)
  /-- Modelled from the spec: the type `ItemAlreadyExistsError` (declared
  outside the given sources), carrying the conflicting name. -/
  | ItemAlreadyExistsError (Name : Bytes)
  | Errorf (format : Bytes) (args : List Bytes)
  | Wrap (cause : Err) (message : Bytes)
  | Wrapf (cause : Err) (format : Bytes) (args : List Bytes)
  | lib (e : LibError)
  deriving DecidableEq, Repr

/-- What the text of an error depends on outside the repository: the Unicode
tables of `strconv.IsPrint` and the messages of the library errors. -/
structure Texts where
  printTable : Nat → Bool
  libText : LibError → Bytes

/-- The method `Error()` of each error value.  Modelled from the spec: the
formats of `ExecutionFailedError` and `ItemAlreadyExistsError` (declared
outside the given sources), as the tests of `bw_test.go` spell them. -/
def Err.Error (t : Texts) : Err → Bytes
  | .ExecutionFailedError cmd msg =>
    Sprintf t.printTable (ascii "'%s': Execution failed: %s") [cmd, msg]
  | .ItemAlreadyExistsError name => Sprintf t.printTable (ascii "item %s already exists") [name]
  | .Errorf format args => Sprintf t.printTable format args
  | .Wrap cause message => message ++ ascii ": " ++ cause.Error t
  | .Wrapf cause format args => Sprintf t.printTable format args ++ ascii ": " ++ cause.Error t
  | .lib e => t.libText e

/-- The outcome of a Go call that returns `(value, error)`: the value with a
nil error, a non-nil error, or a run-time panic (here always a nil pointer
dereference). -/
inductive Result (α : Type) where
  | ok (v : α)
  | error (e : Err)
  | panic
  deriving DecidableEq, Repr

/-! ## `encoding/json`: reading -/

namespace json

/-- A JSON text, parsed.  A number keeps its literal. -/
inductive Value where
  | null
  | bool (b : Bool)
  | number (literal : Bytes)
  | string (s : Bytes)
  | array (elems : List Value)
  | object (members : List (Bytes × Value))

/-- The scanner's `isSpace`: space, tab, carriage return, line feed. -/
def isSpace (c : Nat) : Bool := c = 32 || c = 9 || c = 13 || c = 10

/-- Drop leading white space. -/
def skipSpace : Bytes → Bytes
  | [] => []
  | c :: s => if isSpace c then skipSpace s else c :: s

/-- The value of a hexadecimal digit of either case. -/
def hexValue (c : Nat) : Option Nat :=
  if 48 ≤ c ∧ c ≤ 57 then some (c - 48)
  else if 97 ≤ c ∧ c ≤ 102 then some (c - 87)
  else if 65 ≤ c ∧ c ≤ 70 then some (c - 55)
  else none

/-- Go `getu4`: the rune of a leading `\uXXXX`, `none` where the Go source
returns -1. -/
def getu4 : Bytes → Option Nat
  | 92 :: 117 :: a :: b :: c :: d :: _ =>
    match hexValue a, hexValue b, hexValue c, hexValue d with
    | some x, some y, some z, some w => some (((x * 16 + y) * 16 + z) * 16 + w)
    | _, _, _, _ => none
  | _ => none

/-- The character a one-letter escape stands for; the scanner admits
`b f n r t \ / "` only. -/
def simpleEscape (e : Nat) : Option Nat :=
  if e = 34 ∨ e = 92 ∨ e = 47 then some e
  else if e = 98 then some 8
  else if e = 102 then some 12
  else if e = 110 then some 10
  else if e = 114 then some 13
  else if e = 116 then some 9
  else none

/-- Prepend decoded bytes to the result of the rest of a string literal. -/
def emit (out : Bytes) (r : Option (Bytes × Bytes)) : Option (Bytes × Bytes) :=
  r.map (fun p => (out ++ p.1, p.2))

/-- A string literal from just after its opening quote: the scanner's string
states together with Go `unquote`.  Returns the decoded string and the input
after the closing quote; `none` is a syntax error.  A control character or an
unknown escape is an error; an escaped surrogate half without its partner
and a byte that is no valid UTF-8 decode to U+FFFD.  The first argument
bounds the number of iterations. -/
def unquoteLoop : Nat → Bytes → Option (Bytes × Bytes)
  | 0, _ => none
  | _, [] => none
  | fuel + 1, c :: s =>
    if c = 34 then some ([], s)
    else if c = 92 then
      match s with
      | [] => none
      | e :: s1 =>
        if e = 117 then
          match getu4 (c :: e :: s1) with
          | none => none
          | some rr =>
            if 0xD800 ≤ rr ∧ rr < 0xE000 then
              match getu4 (s1.drop 4) with
              | some rr1 =>
                if rr < 0xDC00 ∧ 0xDC00 ≤ rr1 ∧ rr1 < 0xE000 then
                  emit (utf8.EncodeRune ((rr - 0xD800) * 1024 + (rr1 - 0xDC00) + 0x10000))
                    (unquoteLoop fuel (s1.drop 10))
                else emit (utf8.EncodeRune utf8.RuneError) (unquoteLoop fuel (s1.drop 4))
              | none => emit (utf8.EncodeRune utf8.RuneError) (unquoteLoop fuel (s1.drop 4))
            else emit (utf8.EncodeRune rr) (unquoteLoop fuel (s1.drop 4))
        else
          match simpleEscape e with
          | some ch => emit [ch] (unquoteLoop fuel s1)
          | none => none
    else if c < 32 then none
    else if c < 128 then emit [c] (unquoteLoop fuel s)
    else
      emit (utf8.EncodeRune (utf8.DecodeRune (c :: s)).1)
        (unquoteLoop fuel ((c :: s).drop (utf8.DecodeRune (c :: s)).2))

/-- A string literal from just after its opening quote. -/
def scanString (s : Bytes) : Option (Bytes × Bytes) := unquoteLoop s.length s

/-- A decimal digit. -/
def isDigit (c : Nat) : Bool := decide (48 ≤ c) && decide (c ≤ 57)

/-- One or more digits, then the rest. -/
def scanDigits (s : Bytes) : Option (Bytes × Bytes) :=
  match s.span isDigit with
  | ([], _) => none
  | (ds, rest) => some (ds, rest)

/-- The exponent of a number, if there is one. -/
def scanExponent (s : Bytes) : Option (Bytes × Bytes) :=
  match s with
  | e :: t =>
    if e = 101 ∨ e = 69 then
      match t with
      | sign :: u =>
        if sign = 43 ∨ sign = 45 then (scanDigits u).map (fun p => (e :: sign :: p.1, p.2))
        else (scanDigits t).map (fun p => (e :: p.1, p.2))
      | [] => none
    else some ([], s)
  | [] => some ([], s)

/-- The fraction and the exponent of a number, if there are any. -/
def scanFraction (s : Bytes) : Option (Bytes × Bytes) :=
  match s with
  | 46 :: t =>
    match scanDigits t with
    | some (ds, rest) => (scanExponent rest).map (fun p => (46 :: ds ++ p.1, p.2))
    | none => none
  | _ => scanExponent s

/-- The digits of a number after its sign: `0`, or a digit from 1 to 9 and
any digits, then fraction and exponent. -/
def scanUnsigned (s : Bytes) : Option (Bytes × Bytes) :=
  match s with
  | d :: t =>
    if d = 48 then (scanFraction t).map (fun p => (d :: p.1, p.2))
    else if 49 ≤ d ∧ d ≤ 57 then
      (scanFraction (t.span isDigit).2).map (fun p => (d :: (t.span isDigit).1 ++ p.1, p.2))
    else none
  | [] => none

/-- A number literal and the rest of the input. -/
def scanNumber (s : Bytes) : Option (Bytes × Bytes) :=
  match s with
  | 45 :: t => (scanUnsigned t).map (fun p => (45 :: p.1, p.2))
  | _ => scanUnsigned s

/-- The rest of the input after the given literal, when it starts with it. -/
def scanLiteral : Bytes → Bytes → Option Bytes
  | [], s => some s
  | _ :: _, [] => none
  | l :: ls, c :: s => if l = c then scanLiteral ls s else none

/-- The elements of an array after its first `[`, up to and including the
closing `]`; `value` reads one value. -/
def parseElems (value : Bytes → Option (Value × Bytes)) :
    Nat → Bytes → Option (List Value × Bytes)
  | 0, _ => none
  | n + 1, s =>
    match value s with
    | none => none
    | some (v, s1) =>
      match skipSpace s1 with
      | c :: s2 =>
        if c = 44 then (parseElems value n s2).map (fun p => (v :: p.1, p.2))
        else if c = 93 then some ([v], s2)
        else none
      | [] => none

/-- The members of an object from the opening quote of a key up to and
including the closing brace; `value` reads one value. -/
def parseMembers (value : Bytes → Option (Value × Bytes)) :
    Nat → Bytes → Option (List (Bytes × Value) × Bytes)
  | 0, _ => none
  | n + 1, s =>
    match s with
    | 34 :: s1 =>
      match scanString s1 with
      | none => none
      | some (k, s2) =>
        match skipSpace s2 with
        | 58 :: s3 =>
          match value s3 with
          | none => none
          | some (v, s4) =>
            match skipSpace s4 with
            | c :: s5 =>
              if c = 44 then
                (parseMembers value n (skipSpace s5)).map (fun p => ((k, v) :: p.1, p.2))
              else if c = 125 then some ([(k, v)], s5)
              else none
            | [] => none
        | _ => none
    | _ => none

/-- One JSON value, leading white space skipped, and the rest of the input.
The first argument bounds the nesting depth and the length of each array and
object. -/
def parseValue : Nat → Bytes → Option (Value × Bytes)
  | 0, _ => none
  | fuel + 1, s =>
    match skipSpace s with
    | [] => none
    | c :: t =>
      if c = 123 then
        match skipSpace t with
        | 125 :: r => some (Value.object [], r)
        | t1 => (parseMembers (parseValue fuel) fuel t1).map (fun p => (Value.object p.1, p.2))
      else if c = 91 then
        match skipSpace t with
        | 93 :: r => some (Value.array [], r)
        | t1 => (parseElems (parseValue fuel) fuel t1).map (fun p => (Value.array p.1, p.2))
      else if c = 34 then (scanString t).map (fun p => (Value.string p.1, p.2))
      else if c = 116 then (scanLiteral (ascii "rue") t).map (fun r => (Value.bool true, r))
      else if c = 102 then (scanLiteral (ascii "alse") t).map (fun r => (Value.bool false, r))
      else if c = 110 then (scanLiteral (ascii "ull") t).map (fun r => (Value.null, r))
      else (scanNumber (c :: t)).map (fun p => (Value.number p.1, p.2))

/-- A whole JSON text: one value between optional white space.  `none` is
the `SyntaxError` of `checkValid`.  The bound `s.length + 1` is never reached,
every nested value and every element taking at least one byte.  (The limit
of 10000 nesting levels of the Go decoder is not modelled.) -/
def parse (s : Bytes) : Option Value :=
  match parseValue (s.length + 1) s with
  | some (v, rest) => if skipSpace rest = [] then some v else none
  | none => none

/-- Go `json.Valid`. -/
def Valid (s : Bytes) : Bool := (parse s).isSome

/-- The folded form of an object key under which field names are compared
(`foldName`, that is `bytes.EqualFold`): ASCII letters in upper case, U+017F
as `S` and U+212A as `K`.  Other runes fold to runes outside ASCII and are
kept as they are, the field names compared with being ASCII. -/
def foldName : Bytes → Bytes
  | 0xC5 :: 0xBF :: s => 83 :: foldName s
  | 0xE2 :: 0x84 :: 0xAA :: s => 75 :: foldName s
  | c :: s => (if 97 ≤ c ∧ c ≤ 122 then c - 32 else c) :: foldName s
  | [] => []

/-- Whether the object key selects the struct field with this JSON name. -/
def keyIs (key : Bytes) (name : String) : Bool := foldName key = foldName (ascii name)

/-- Decode a member value into a field of type `string`: a string is stored,
`null` leaves the field as it is, anything else is an `UnmarshalTypeError`. -/
def intoString (old : Bytes) : Value → Option Bytes
  | Value.string s => some s
  | Value.null => some old
  | _ => none

/-- Decode a member value into a field of type `*string`: a string is stored
behind a fresh pointer, `null` makes the pointer nil, anything else is an
`UnmarshalTypeError`. -/
def intoStringPtr : Value → Option (Option Bytes)
  | Value.string s => some (some s)
  | Value.null => some none
  | _ => none

end json

/-! ## `encoding/json`: writing -/

namespace json

/-- The table `htmlSafeSet`: the ASCII bytes a string is written with as they
are, which excludes the control characters, the double quote, the backslash
and `<`, `>`, `&`. -/
def htmlSafe (b : Nat) : Bool :=
  decide (0x20 ≤ b) && decide (b < 0x80) && b != 34 && b != 92 && b != 60 && b != 62 && b != 38

/-- How `appendString` writes an ASCII byte outside `htmlSafeSet` (Go 1.22 and
later; earlier versions write backspace and form feed as `u0008` and `u000c`
escapes, which read back as the same bytes). -/
def escapeByte (b : Nat) : Bytes :=
  if b = 92 ∨ b = 34 then [92, b]
  else if b = 8 then [92, 98]
  else if b = 12 then [92, 102]
  else if b = 10 then [92, 110]
  else if b = 13 then [92, 114]
  else if b = 9 then [92, 116]
  else [92, 117, 48, 48, strconv.lowerhex (b / 16), strconv.lowerhex (b % 16)]

/-- The loop of Go `appendString` with HTML escaping (the setting of
`json.Marshal`), with the number of remaining iterations: a byte that is no
valid UTF-8 is written as the escape of U+FFFD, U+2028 and U+2029 are
escaped, every other rune is copied. -/
def appendStringLoop : Nat → Bytes → Bytes
  | _, [] => []
  | 0, _ :: _ => []
  | fuel + 1, b :: s =>
    if b < 0x80 then
      (if htmlSafe b then [b] else escapeByte b) ++ appendStringLoop fuel s
    else if (utf8.DecodeRune (b :: s)).1 = utf8.RuneError ∧ (utf8.DecodeRune (b :: s)).2 = 1 then
      ascii "\\ufffd" ++ appendStringLoop fuel s
    else if (utf8.DecodeRune (b :: s)).1 = 0x2028 ∨ (utf8.DecodeRune (b :: s)).1 = 0x2029 then
      ascii "\\u202" ++ [strconv.lowerhex ((utf8.DecodeRune (b :: s)).1 % 16)] ++
        appendStringLoop fuel ((b :: s).drop (utf8.DecodeRune (b :: s)).2)
    else
      (b :: s).take (utf8.DecodeRune (b :: s)).2 ++
        appendStringLoop fuel ((b :: s).drop (utf8.DecodeRune (b :: s)).2)

/-- A Go string as `json.Marshal` writes it. -/
def appendString (s : Bytes) : Bytes := 34 :: appendStringLoop s.length s ++ [34]

/-- A `*string` as `json.Marshal` writes it: `null` for the nil pointer. -/
def appendStringPtr : Option Bytes → Bytes
  | none => ascii "null"
  | some s => appendString s

/-- An `int` as `json.Marshal` writes it, in decimal. -/
def appendInt (n : Int) : Bytes :=
  if n < 0 then 45 :: (Nat.toDigits 10 n.natAbs).map Char.toNat
  else (Nat.toDigits 10 n.natAbs).map Char.toNat

/-- Every element decoded, or `none` if one fails. -/
def decodeAll {α : Type} (f : Value → Option α) : List Value → Option (List α)
  | [] => some []
  | v :: vs =>
    match f v, decodeAll f vs with
    | some a, some as => some (a :: as)
    | _, _ => none

/-- Go `json.Unmarshal` into a fresh variable whose type decodes by `decode`:
the syntax of the whole input is checked first, then the value is decoded;
a value of the wrong JSON type anywhere makes the call fail. -/
def Unmarshal {α : Type} (decode : Value → Option α) (data : Bytes) : Except LibError α :=
  match parse data with
  | none => Except.error LibError.jsonSyntaxError
  | some v =>
    match decode v with
    | none => Except.error LibError.jsonUnmarshalTypeError
    | some a => Except.ok a

end json

/-! ## The data model -/

/-- Modelled from the spec: the type `Field` (declared outside the given
sources), one named secret component, `{ Name: string, Value: string }`,
with the JSON names `name` and `value`. -/
structure Field where
  Name : Bytes
  Value : Bytes
  deriving DecidableEq, Repr

/-- Modelled from the spec: the type `Item` (declared outside the given
sources), `{ ID, Name, Values: ordered sequence of Field, Bucket }`.  The
sequence `Values` is a list; the spec does not tell a nil slice from an empty
one, and neither does the list. -/
structure Item where
  ID : Bytes
  Name : Bytes
  Values : List Field
  Bucket : Option Bytes
  deriving DecidableEq, Repr

/-- Modelled from the spec: the type `GetOptions` (declared outside the given
sources); `Get` reads its `Name`. -/
structure GetOptions where
  Name : Bytes

/-- The struct `BitwardenItemIn`, the wire record the adapter writes. -/
structure BitwardenItemIn where
  ID : Option Bytes
  /-- The field `Type` of the Go struct. -/
  Type_ : Int
  Name : Bytes
  Notes : Bytes
  Login : Bytes
  FolderID : Option Bytes
  deriving DecidableEq, Repr

/-- The struct `BitwardenItemOut`, the wire record the adapter reads. -/
structure BitwardenItemOut where
  ID : Option Bytes
  Name : Bytes
  Notes : Bytes
  deriving DecidableEq, Repr

def BitwardenFolderName : Bytes := ascii "ssh-agent"
def BitwardenCommand : Bytes := ascii "bw"
def BitwardenFolderObjectType : Bytes := ascii "folder"
def BitwardenItemObjectType : Bytes := ascii "item"
def BitwardenItemObjectTypePlural : Bytes := ascii "items"
def BitwardenItemTypeLogin : Int := 1
def errNoGetF : Bytes := ascii "object %q with name %q not found in %q"
def errNoParseList : Bytes := ascii "cannot parse list"
def errNoParseGetF : Bytes := ascii "cannot parse output of get object %q with name %q"

/-! ## The record codec -/

/-- Go `json.Marshal` of a `BitwardenItemIn`: the six fields in declaration
order under their JSON names. -/
def BitwardenItemIn.Marshal (i : BitwardenItemIn) : Bytes :=
  ascii "\x7b\"id\":" ++ json.appendStringPtr i.ID ++
  ascii ",\"type\":" ++ json.appendInt i.Type_ ++
  ascii ",\"name\":" ++ json.appendString i.Name ++
  ascii ",\"notes\":" ++ json.appendString i.Notes ++
  ascii ",\"login\":" ++ json.appendString i.Login ++
  ascii ",\"folderId\":" ++ json.appendStringPtr i.FolderID ++ ascii "\x7d"

/-- The method `BitwardenItemIn.Encode`: JSON, then base64. -/
def BitwardenItemIn.Encode (i : BitwardenItemIn) : Bytes :=
  base64.EncodeToString i.Marshal

/-- Go `json.Marshal` of one `Field`. -/
def Field.Marshal (f : Field) : Bytes :=
  ascii "\x7b\"name\":" ++ json.appendString f.Name ++
  ascii ",\"value\":" ++ json.appendString f.Value ++ ascii "\x7d"

/-- The elements of a JSON array of fields, separated by commas. -/
def marshalFieldList : List Field → Bytes
  | [] => []
  | [f] => f.Marshal
  | f :: g :: rest => f.Marshal ++ 44 :: marshalFieldList (g :: rest)

/-- The JSON array of `{name, value}` objects of a sequence of fields. -/
def marshalFields (vs : List Field) : Bytes := 91 :: marshalFieldList vs ++ [93]

/-- Modelled from the spec: the method `Item.EncodeValues` (declared outside
the given sources): "serialize `Values` as a JSON array of `{name, value}`
objects, base64-encode that byte sequence".  It returns no error.  A nil
`Values`, which `json.Marshal` writes as `null` and not as an array, is not
told from the empty sequence here. -/
def Item.EncodeValues (i : Item) : Result Bytes :=
  Result.ok (base64.EncodeToString (marshalFields i.Values))

/-- One member of a JSON object decoded into a `BitwardenItemOut`; a key
that names no field is skipped. -/
def BitwardenItemOut.setMember (o : BitwardenItemOut) (kv : Bytes × json.Value) :
    Option BitwardenItemOut :=
  if json.keyIs kv.1 "id" then (json.intoStringPtr kv.2).map (fun v => { o with ID := v })
  else if json.keyIs kv.1 "name" then (json.intoString o.Name kv.2).map (fun v => { o with Name := v })
  else if json.keyIs kv.1 "notes" then
    (json.intoString o.Notes kv.2).map (fun v => { o with Notes := v })
  else some o

/-- The members of an object decoded one after the other into a struct. -/
def decodeMembers {α : Type} (set : α → Bytes × json.Value → Option α) :
    α → List (Bytes × json.Value) → Option α
  | a, [] => some a
  | a, kv :: rest =>
    match set a kv with
    | some a1 => decodeMembers set a1 rest
    | none => none

/-- A JSON value decoded into a fresh `BitwardenItemOut`: an object sets the
fields it names, `null` leaves the zero value, anything else is an
`UnmarshalTypeError`. -/
def BitwardenItemOut.decode : json.Value → Option BitwardenItemOut
  | json.Value.object ms => decodeMembers BitwardenItemOut.setMember ⟨none, [], []⟩ ms
  | json.Value.null => some ⟨none, [], []⟩
  | _ => none

/-- A JSON value decoded into a fresh `[]BitwardenItemOut`: an array decodes
element by element, `null` gives the nil slice. -/
def BitwardenItemOut.decodeSlice : json.Value → Option (List BitwardenItemOut)
  | json.Value.array vs => json.decodeAll BitwardenItemOut.decode vs
  | json.Value.null => some []
  | _ => none

/-- One member of a JSON object decoded into a `Field`. -/
def Field.setMember (f : Field) (kv : Bytes × json.Value) : Option Field :=
  if json.keyIs kv.1 "name" then (json.intoString f.Name kv.2).map (fun v => { f with Name := v })
  else if json.keyIs kv.1 "value" then
    (json.intoString f.Value kv.2).map (fun v => { f with Value := v })
  else some f

/-- A JSON value decoded into a fresh `Field`. -/
def Field.decode : json.Value → Option Field
  | json.Value.object ms => decodeMembers Field.setMember ⟨[], []⟩ ms
  | json.Value.null => some ⟨[], []⟩
  | _ => none

/-- A JSON value decoded into a fresh `[]Field`. -/
def Field.decodeSlice : json.Value → Option (List Field)
  | json.Value.array vs => json.decodeAll Field.decode vs
  | json.Value.null => some []
  | _ => none

/-- The function `DecodeItem`: the wire record is parsed, its notes are
base64-decoded, its id is dereferenced, the decoded notes are parsed into the
fields. -/
def DecodeItem (stdout : Bytes) : Result Item :=
  match json.Unmarshal BitwardenItemOut.decode stdout with
  | Except.error e => Result.error (Err.Wrap (Err.lib e) (ascii "cannot get output"))
  | Except.ok tmp =>
    match base64.DecodeString tmp.Notes with
    | none => Result.error (Err.lib LibError.base64CorruptInputError)
    | some decodedRawNotes =>
      match tmp.ID with
      | none => Result.panic
      | some id =>
        match json.Unmarshal Field.decodeSlice decodedRawNotes with
        | Except.error e => Result.error (Err.lib e)
        | Except.ok values =>
          Result.ok { ID := id, Name := tmp.Name, Values := values, Bucket := none }

/-- The function `DecodeBitwardenOut`. -/
def DecodeBitwardenOut (stdout : Bytes) : Result BitwardenItemOut :=
  match json.Unmarshal BitwardenItemOut.decode stdout with
  | Except.error e => Result.error (Err.Wrap (Err.lib e) errNoParseList)
  | Except.ok item => Result.ok item

/-- The function `DecodeBitwardenOuts`. -/
def DecodeBitwardenOuts (stdout : Bytes) : Result (List BitwardenItemOut) :=
  match json.Unmarshal BitwardenItemOut.decodeSlice stdout with
  | Except.error e => Result.error (Err.Wrap (Err.lib e) errNoParseList)
  | Except.ok items => Result.ok items

/-- The loop of `DecodeItems`: each record's id is dereferenced and an item
with that id and the record's name is appended; the notes are not read. -/
def decodeItemsLoop : List BitwardenItemOut → List Item → Result (List Item)
  | [], items => Result.ok items
  | temp :: rest, items =>
    match temp.ID with
    | none => Result.panic
    | some id =>
      decodeItemsLoop rest (items ++ [{ ID := id, Name := temp.Name, Values := [], Bucket := none }])

/-- The function `DecodeItems`. -/
def DecodeItems (stdout : Bytes) : Result (List Item) :=
  match DecodeBitwardenOuts stdout with
  | Result.error e => Result.error e
  | Result.panic => Result.panic
  | Result.ok outs => decodeItemsLoop outs []

/-! ## The command runner and the adapter -/

/-- What one run of the external tool gives back: the captured standard
output and standard error, and the error of `command.Output()` rendered with
`%v`, `none` when the process was started and exited with status 0. -/
structure CmdOutput where
  stdout : Bytes
  stderr : Bytes
  err : Option Bytes

/-- Modelled from the spec: the `Commander` of package `internal` (declared
outside the given sources), "program name + argument sequence → bytes +
error".  A deterministic runner is a function of the invocations made before
(each the program name followed by its arguments) and of the current one. -/
abbrev Executor := List (List Bytes) → List Bytes → CmdOutput

/-- The struct `Bitwarden`, together with the record `log` of the invocations
made through `Commander` so far, oldest first. -/
structure Bitwarden where
  Commander : Executor
  FolderID : Option Bytes
  log : List (List Bytes)

/-- The method `Bw`: run `bw` with the arguments; a failure becomes an
`ExecutionFailedError` with the command line joined by blanks and the message
`fmt.Sprintf("%v: %s", err, stderr)`.  The standard output is returned either
way. -/
def Bitwarden.Bw (b : Bitwarden) (args : List Bytes) : (Bytes × Option Err) × Bitwarden :=
  let out := b.Commander b.log (BitwardenCommand :: args)
  let b1 := { b with log := b.log ++ [BitwardenCommand :: args] }
  match out.err with
  | some e =>
    ((out.stdout,
      some (Err.ExecutionFailedError (Join (BitwardenCommand :: args) (ascii " "))
        (e ++ ascii ": " ++ out.stderr))), b1)
  | none => ((out.stdout, none), b1)

/-- The method `GetFolder`. -/
def Bitwarden.GetFolder (b : Bitwarden) (name : Bytes) : Result (Option Bytes) × Bitwarden :=
  match b.Bw [ascii "get", BitwardenFolderObjectType, name] with
  | ((_, some err), b1) =>
    (Result.error (Err.Wrapf err errNoParseGetF [BitwardenFolderObjectType, name]), b1)
  | ((output, none), b1) =>
    match DecodeBitwardenOut output with
    | Result.error err =>
      (Result.error (Err.Wrapf err errNoParseGetF [BitwardenFolderObjectType, BitwardenFolderName]),
        b1)
    | Result.panic => (Result.panic, b1)
    | Result.ok out => (Result.ok out.ID, b1)

/-- The method `EnsureFolder`. -/
def Bitwarden.EnsureFolder (b : Bitwarden) (name : Bytes) : Result (Option Bytes) × Bitwarden :=
  match b.GetFolder name with
  | (Result.ok folderUUID, b1) => (Result.ok folderUUID, b1)
  | (Result.panic, b1) => (Result.panic, b1)
  | (Result.error _, b1) =>
    match b1.Bw [ascii "create", BitwardenFolderObjectType,
        BitwardenItemIn.Encode
          { ID := none, Type_ := 0, Name := name, Notes := [], Login := [], FolderID := none }] with
    | ((_, some err), b2) => (Result.error err, b2)
    | ((output, none), b2) =>
      match DecodeBitwardenOut output with
      | Result.error err =>
        (Result.error
          (Err.Wrapf err errNoParseGetF [BitwardenFolderObjectType, BitwardenFolderName]), b2)
      | Result.panic => (Result.panic, b2)
      | Result.ok out => (Result.ok out.ID, b2)

/-- The method `Sync`.  The assignment `b.FolderID, err = b.EnsureFolder(..)`
stores the first result also when the second is an error: the nil pointer. -/
def Bitwarden.Sync (b : Bitwarden) : Result Unit × Bitwarden :=
  match b.Bw [ascii "sync"] with
  | ((_, some err), b1) => (Result.error err, b1)
  | ((_, none), b1) =>
    match b1.EnsureFolder BitwardenFolderName with
    | (Result.ok folderID, b2) => (Result.ok (), { b2 with FolderID := folderID })
    | (Result.error err, b2) => (Result.error err, { b2 with FolderID := none })
    | (Result.panic, b2) => (Result.panic, b2)

/-- The loop of `Get`: the first item with exactly this name. -/
def findItem (name : Bytes) : List Item → Option Item
  | [] => none
  | item :: rest => if item.Name = name then some item else findItem name rest

/-- The method `Get`. -/
def Bitwarden.Get (b : Bitwarden) (options : GetOptions) : Result Item × Bitwarden :=
  match b.Sync with
  | (Result.error err, b1) => (Result.error err, b1)
  | (Result.panic, b1) => (Result.panic, b1)
  | (Result.ok _, b1) =>
    match b1.FolderID with
    | none => (Result.panic, b1)
    | some folderID =>
      match b1.Bw [ascii "list", BitwardenItemObjectTypePlural, ascii "--folderid", folderID] with
      | ((_, some err), b2) => (Result.error err, b2)
      | ((output, none), b2) =>
        match DecodeItems output with
        | Result.error err => (Result.error err, b2)
        | Result.panic => (Result.panic, b2)
        | Result.ok items =>
          match findItem options.Name items with
          | some item => (Result.ok item, b2)
          | none =>
            (Result.error
              (Err.Errorf errNoGetF [BitwardenItemObjectType, options.Name, BitwardenFolderName]),
              b2)

/-- The method `List`. -/
def Bitwarden.List (b : Bitwarden) : Result (List Item) × Bitwarden :=
  match b.Sync with
  | (Result.error err, b1) => (Result.error err, b1)
  | (Result.panic, b1) => (Result.panic, b1)
  | (Result.ok _, b1) =>
    match b1.FolderID with
    | none => (Result.panic, b1)
    | some folderID =>
      match b1.Bw [ascii "list", BitwardenItemObjectType, ascii "--folderid", folderID] with
      | ((_, some err), b2) => (Result.error err, b2)
      | ((output, none), b2) => (DecodeItems output, b2)

/-- The method `Add`. -/
def Bitwarden.Add (b : Bitwarden) (item : Item) : Result Unit × Bitwarden :=
  match b.Get { Name := item.Name } with
  | (Result.panic, b1) => (Result.panic, b1)
  | (Result.ok _, b1) => (Result.error (Err.ItemAlreadyExistsError item.Name), b1)
  | (Result.error _, b1) =>
    match item.EncodeValues with
    | Result.error err => (Result.error err, b1)
    | Result.panic => (Result.panic, b1)
    | Result.ok encodedValues =>
      match b1.Bw [ascii "create", BitwardenItemObjectType,
          BitwardenItemIn.Encode
            { ID := none, Type_ := BitwardenItemTypeLogin, Name := item.Name,
              Notes := encodedValues, Login := item.Name, FolderID := b1.FolderID }] with
      | ((_, some err), b2) => (Result.error err, b2)
      | ((_, none), b2) => (Result.ok (), b2)

/-! ## Invocations -/

/-- The command line `bw sync`. -/
def syncCmd : List Bytes := [BitwardenCommand, ascii "sync"]

/-- The command line `bw get <objectType> <name>`. -/
def getCmd (objectType name : Bytes) : List Bytes :=
  [BitwardenCommand, ascii "get", objectType, name]

/-- The command line `bw list <objectType> --folderid <folderID>`. -/
def listCmd (objectType folderID : Bytes) : List Bytes :=
  [BitwardenCommand, ascii "list", objectType, ascii "--folderid", folderID]

/-- The command line `bw create <objectType> <payload>`. -/
def createCmd (objectType payload : Bytes) : List Bytes :=
  [BitwardenCommand, ascii "create", objectType, payload]

/-- Whether a command line is a creation of the given object type, whatever
its payload. -/
def isCreate (objectType : Bytes) (argv : List Bytes) : Bool :=
  argv.take 3 == [BitwardenCommand, ascii "create", objectType]

/-- The invocations made between the adapter state `b` and the later state
`b1`. -/
def issued (b b1 : Bitwarden) : List (List Bytes) := b1.log.drop b.log.length

/-- A string that `%q` writes as it is between double quotes: printable ASCII
without the double quote and the backslash. -/
def plainASCII (s : Bytes) : Prop := ∀ c ∈ s, 0x20 ≤ c ∧ c ≤ 0x7E ∧ c ≠ 34 ∧ c ≠ 92

/-- The wire record `Add` builds for an item under a folder id: no id, type
1, the item's name as name and as login, the base64 of the JSON array of the
item's fields as notes. -/
def itemRecord (item : Item) (folderID : Option Bytes) : BitwardenItemIn :=
  { ID := none, Type_ := 1, Name := item.Name,
    Notes := base64.EncodeToString (marshalFields item.Values),
    Login := item.Name, FolderID := folderID }

/-- The wire record `EnsureFolder` builds for a folder: the name only. -/
def folderRecord (name : Bytes) : BitwardenItemIn :=
  { ID := none, Type_ := 0, Name := name, Notes := [], Login := [], FolderID := none }

/-- The `ExecutionFailedError` of a failed command line. -/
def executionFailed (argv : List Bytes) (out : CmdOutput) (err : Bytes) : Err :=
  Err.ExecutionFailedError (Join argv (ascii " ")) (err ++ ascii ": " ++ out.stderr)

/-! ## Concrete runners and records -/

/-- A runner that answers each command line from a table and fails on a
command line the table does not have. -/
def tableExecutor (table : List (List Bytes × CmdOutput)) : Executor := fun _ argv =>
  match table.lookup argv with
  | some out => out
  | none => ⟨[], [], some (ascii "unexpected command")⟩

/-- An output of a process that printed `stdout` and exited with status 0. -/
def printed (stdout : Bytes) : CmdOutput := ⟨stdout, [], none⟩

/-- An output of a process that printed `stderr` and exited with status 1. -/
def failed (stderr : Bytes) : CmdOutput := ⟨[], stderr, some (ascii "exit status 1")⟩

/-- Texts with no printable rune above U+00FF and one message for every
library error. -/
def plainTexts : Texts := ⟨fun _ => false, fun _ => ascii "library error"⟩

def folderUUID : Bytes := ascii "9110c651-7b37-4bea-8580-af64013a9a92"

/-- A folder record as `bw get folder ssh-agent` prints it. -/
def folderJSON : Bytes :=
  ascii "\x7b\"object\":\"folder\",\"id\":\"9110c651-7b37-4bea-8580-af64013a9a92\",\"name\":\"ssh-agent\"\x7d"

/-- The line `bw` prints for an object it does not have. -/
def notFoundText : Bytes := ascii "Not found."

/-- The fields of the tests of `bw_test.go`. -/
def keyPair : List Field := [⟨ascii "private_key", ascii "X"⟩, ⟨ascii "public_key", ascii "Y"⟩]

/-- A list response with the two records `test1` and `test2`, both carrying
the key pair in their notes. -/
def listJSON : Bytes :=
  ascii "[\x7b\"id\":\"6fe3bf5f\",\"name\":\"test1\",\"notes\":\"W3sibmFtZSI6InByaXZhdGVfa2V5IiwidmFsdWUiOiJYIn0seyJuYW1lIjoicHVibGljX2tleSIsInZhbHVlIjoiWSJ9XQ==\"\x7d, \x7b\"id\":\"6fe3bf60\",\"name\":\"test2\",\"notes\":\"W3sibmFtZSI6InByaXZhdGVfa2V5IiwidmFsdWUiOiJYIn0seyJuYW1lIjoicHVibGljX2tleSIsInZhbHVlIjoiWSJ9XQ==\"\x7d]"

/-- A fresh adapter over a vault whose folder exists and whose list response
is `list`; creations succeed and print the folder record. -/
def vault (list : Bytes) : Bitwarden :=
  { Commander := fun log argv =>
      if isCreate BitwardenItemObjectType argv || isCreate BitwardenFolderObjectType argv then
        printed folderJSON
      else
        tableExecutor
          [(syncCmd, printed []),
           (getCmd BitwardenFolderObjectType BitwardenFolderName, printed folderJSON),
           (listCmd BitwardenItemObjectTypePlural folderUUID, printed list)] log argv,
    FolderID := none, log := [] }

/-- A fresh adapter over a tool whose `bw sync` fails and whose other
commands succeed. -/
def vaultSyncFails : Bitwarden :=
  { Commander := fun _ argv => if argv = syncCmd then failed (ascii "some err") else printed folderJSON,
    FolderID := none, log := [] }

/-- A fresh adapter over a vault whose `bw sync` fails, whose list response is
the empty list and whose other commands succeed and print the folder
record. -/
def vaultSyncFailsEmpty : Bitwarden :=
  { Commander := fun _ argv =>
      if argv = syncCmd then failed (ascii "some err")
      else if argv = listCmd BitwardenItemObjectTypePlural folderUUID then printed (ascii "[]")
      else printed folderJSON,
    FolderID := none, log := [] }

/-- A fresh adapter over a tool whose folder lookup has the given output and
whose creations succeed and print the folder record. -/
def vaultFolderLookup (lookup : CmdOutput) : Bitwarden :=
  { Commander := fun _ argv =>
      if isCreate BitwardenFolderObjectType argv then printed folderJSON else lookup,
    FolderID := none, log := [] }

/-- A list response with the one record `test`, carrying the key pair in its
notes. -/
def listAfterAdd : Bytes :=
  ascii "[\x7b\"id\":\"6fe3bf5f\",\"name\":\"test\",\"notes\":\"W3sibmFtZSI6InByaXZhdGVfa2V5IiwidmFsdWUiOiJYIn0seyJuYW1lIjoicHVibGljX2tleSIsInZhbHVlIjoiWSJ9XQ==\"\x7d]"

/-- A fresh adapter over a vault whose folder exists and is empty until an
item is created; from then on the list response is `listAfterAdd`. -/
def vaultEmptyUntilAdd : Bitwarden :=
  { Commander := fun log argv =>
      if argv = syncCmd then printed []
      else if argv = listCmd BitwardenItemObjectTypePlural folderUUID then
        (if log.any (isCreate BitwardenItemObjectType) then printed listAfterAdd
         else printed (ascii "[]"))
      else printed folderJSON,
    FolderID := none, log := [] }

/-- The JSON object of a field, parsed. -/
def Field.toValue (f : Field) : json.Value :=
  json.Value.object [(ascii "name", json.Value.string f.Name),
    (ascii "value", json.Value.string f.Value)]

/-- An item record as `bw get item test` prints it, the key pair in its
notes. -/
def itemJSON : Bytes :=
  ascii "\x7b\"object\":\"item\",\"id\":\"6fe3bf5f-d418-4bc1-b34d-ad2f011a31e2\",\"name\":\"test\",\"notes\":\"W3sibmFtZSI6InByaXZhdGVfa2V5IiwidmFsdWUiOiJYIn0seyJuYW1lIjoicHVibGljX2tleSIsInZhbHVlIjoiWSJ9XQ==\"\x7d"

/-- A field whose value is the single byte 0xFF, which is no valid UTF-8. -/
def binaryField : Field := ⟨ascii "k", [0xFF]⟩

/-- An item record whose notes are the encoding of `[binaryField]`, that is
the base64 of the array whose one object has the name `k` and, as value, the
six characters of the escape of U+FFFD. -/
def binaryItemJSON : Bytes :=
  ascii "\x7b\"id\":\"1\",\"name\":\"t\",\"notes\":\"W3sibmFtZSI6ImsiLCJ2YWx1ZSI6Ilx1ZmZmZCJ9XQ==\"\x7d"

/-- A list response whose one record has a name and no id. -/
def listWithoutID : Bytes := ascii "[\x7b\"name\":\"x\"\x7d]"

/-- A list response whose one record has a null id. -/
def listWithNullID : Bytes := ascii "[\x7b\"id\":null,\"name\":\"x\"\x7d]"

/-- An item record with a name, no id and, as notes, the base64 of `[]`. -/
def itemWithoutID : Bytes := ascii "\x7b\"name\":\"x\",\"notes\":\"W10=\"\x7d"

/-! # Theorems -/

/-! ## The command runner -/

theorem Bw_ok (b : Bitwarden) (args : List Bytes)
    (h : (b.Commander b.log (BitwardenCommand :: args)).err = none) :
    b.Bw args = (((b.Commander b.log (BitwardenCommand :: args)).stdout, none),
      { b with log := b.log ++ [BitwardenCommand :: args] }) := by
  simp [Bitwarden.Bw, h]

theorem Sync_found (b : Bitwarden) (out : BitwardenItemOut)
    (hsync : (b.Commander b.log syncCmd).err = none)
    (hget : (b.Commander (b.log ++ [syncCmd])
      (getCmd BitwardenFolderObjectType BitwardenFolderName)).err = none)
    (hout : DecodeBitwardenOut (b.Commander (b.log ++ [syncCmd])
      (getCmd BitwardenFolderObjectType BitwardenFolderName)).stdout = Result.ok out) :
    b.Sync = (Result.ok (),
      { b with
        FolderID := out.ID,
        log := b.log ++ [syncCmd, getCmd BitwardenFolderObjectType BitwardenFolderName] }) := by
  simp only [syncCmd, getCmd] at *
  simp [Bitwarden.Sync, Bitwarden.EnsureFolder, Bitwarden.GetFolder, Bitwarden.Bw, hsync, hget, hout]

theorem Get_listed (b : Bitwarden) (out : BitwardenItemOut) (fid : Bytes) (items : List Item)
    (n : Bytes)
    (hsync : (b.Commander b.log syncCmd).err = none)
    (hget : (b.Commander (b.log ++ [syncCmd])
      (getCmd BitwardenFolderObjectType BitwardenFolderName)).err = none)
    (hout : DecodeBitwardenOut (b.Commander (b.log ++ [syncCmd])
      (getCmd BitwardenFolderObjectType BitwardenFolderName)).stdout = Result.ok out)
    (hid : out.ID = some fid)
    (hlist : (b.Commander (b.log ++ [syncCmd, getCmd BitwardenFolderObjectType BitwardenFolderName])
      (listCmd BitwardenItemObjectTypePlural fid)).err = none)
    (hitems : DecodeItems (b.Commander
      (b.log ++ [syncCmd, getCmd BitwardenFolderObjectType BitwardenFolderName])
      (listCmd BitwardenItemObjectTypePlural fid)).stdout = Result.ok items) :
    b.Get ⟨n⟩ =
      ((match findItem n items with
        | some item => Result.ok item
        | none => Result.error
            (Err.Errorf errNoGetF [BitwardenItemObjectType, n, BitwardenFolderName])),
       { b with
         FolderID := some fid,
         log := b.log ++ [syncCmd, getCmd BitwardenFolderObjectType BitwardenFolderName,
                  listCmd BitwardenItemObjectTypePlural fid] }) := by
  have hs := Sync_found b out hsync hget hout
  simp only [listCmd] at hlist hitems 
  simp only [Bitwarden.Get, hs, hid, Bitwarden.Bw, hlist, hitems]
  cases findItem n items <;> simp [listCmd]

theorem quoteLoop_plain (table : Nat → Bool) (s : Bytes) (h : plainASCII s) :
    ∀ fuel, s.length ≤ fuel → strconv.quoteLoop table fuel s = s := by
  induction s with
  | nil => intro fuel _; cases fuel <;> rfl
  | cons c s ih =>
    intro fuel hf
    cases fuel with
    | zero => simp at hf
    | succ fuel =>
      obtain ⟨hc1, hc2, hc3, hc4⟩ := h c (List.mem_cons_self c s)
      have hs : plainASCII s := fun x hx => h x (List.mem_cons_of_mem c hx)
      have h1 : c < 0x80 := by omega
      have h2 : strconv.appendEscapedRune table c = [c] := by
        have h3 : ¬ (c = 34 ∨ c = 92) := by omega
        have h4 : strconv.IsPrint table c = true := by
          have h6 : c ≤ 0xFF := by omega
          simp [strconv.IsPrint, h6]; omega
        have h5 : c ≤ 0x7F := by omega
        simp [strconv.appendEscapedRune, h3, h4, utf8.EncodeRune, h5]
      simp only [strconv.quoteLoop, h1, if_true, h2]
      rw [ih hs fuel (by simpa using hf)]
      rfl

theorem Quote_plain (table : Nat → Bool) (s : Bytes) (h : plainASCII s) :
    strconv.Quote table s = 34 :: s ++ [34] := by
  simp [strconv.Quote, quoteLoop_plain table s h s.length (le_refl _)]

theorem errNoGetF_text (table : Nat → Bool) (n : Bytes) :
    Sprintf table errNoGetF [BitwardenItemObjectType, n, BitwardenFolderName] =
      ascii "object \"item\" with name " ++ strconv.Quote table n ++
        ascii " not found in \"ssh-agent\"" := by
  rfl

theorem itemExists_text (t : Texts) (n : Bytes) :
    (Err.ItemAlreadyExistsError n).Error t = ascii "item " ++ n ++ ascii " already exists" := by
  rfl

theorem findItem_first (n : Bytes) (pre : List Item) (item : Item) (post : List Item)
    (hname : item.Name = n) (hpre : ∀ x ∈ pre, x.Name ≠ n) :
    findItem n (pre ++ item :: post) = some item := by
  induction pre with
  | nil => simp [findItem, hname]
  | cons p pre ih =>
    have hp : p.Name ≠ n := hpre p (List.mem_cons_self p pre)
    simp only [List.cons_append, findItem, hp, if_false]
    exact ih (fun x hx => hpre x (List.mem_cons_of_mem p hx))

theorem findItem_none (n : Bytes) (items : List Item) (h : ∀ x ∈ items, x.Name ≠ n) :
    findItem n items = none := by
  induction items with
  | nil => rfl
  | cons p items ih =>
    have hp : p.Name ≠ n := h p (List.mem_cons_self p items)
    simp only [findItem, hp, if_false]
    exact ih (fun x hx => h x (List.mem_cons_of_mem p hx))

theorem findItem_isSome (n : Bytes) (items : List Item) (h : ∃ x ∈ items, x.Name = n) :
    ∃ item, findItem n items = some item := by
  induction items with
  | nil => simp at h
  | cons p items ih =>
    by_cases hp : p.Name = n
    · exact ⟨p, by simp [findItem, hp]⟩
    · obtain ⟨x, hx, hxn⟩ := h
      rcases List.mem_cons.mp hx with rfl | hx
      · exact absurd hxn hp
      · obtain ⟨item, hitem⟩ := ih ⟨x, hx, hxn⟩
        exact ⟨item, by simp [findItem, hp, hitem]⟩

/-- C1. If `bw sync` and the folder lookup succeed and the response of
`bw list items --folderid <id>` decodes to a list with a record named as the
item, `Add` fails with `ItemAlreadyExistsError` naming the item, whose message
is `item <name> already exists`, after exactly the three invocations sync,
folder lookup and list: no `bw create item` is issued. -/
theorem Add_existing_item_rejected (b : Bitwarden) (item : Item) (out : BitwardenItemOut)
    (fid : Bytes) (items : List Item) (t : Texts)
    (hsync : (b.Commander b.log syncCmd).err = none)
    (hget : (b.Commander (b.log ++ [syncCmd])
      (getCmd BitwardenFolderObjectType BitwardenFolderName)).err = none)
    (hout : DecodeBitwardenOut (b.Commander (b.log ++ [syncCmd])
      (getCmd BitwardenFolderObjectType BitwardenFolderName)).stdout = Result.ok out)
    (hid : out.ID = some fid)
    (hlist : (b.Commander (b.log ++ [syncCmd, getCmd BitwardenFolderObjectType BitwardenFolderName])
      (listCmd BitwardenItemObjectTypePlural fid)).err = none)
    (hitems : DecodeItems (b.Commander
      (b.log ++ [syncCmd, getCmd BitwardenFolderObjectType BitwardenFolderName])
      (listCmd BitwardenItemObjectTypePlural fid)).stdout = Result.ok items)
    (hmem : ∃ x ∈ items, x.Name = item.Name) :
    (b.Add item).1 = Result.error (Err.ItemAlreadyExistsError item.Name) ∧
    (Err.ItemAlreadyExistsError item.Name).Error t =
      ascii "item " ++ item.Name ++ ascii " already exists" ∧
    issued b (b.Add item).2 = [syncCmd, getCmd BitwardenFolderObjectType BitwardenFolderName,
      listCmd BitwardenItemObjectTypePlural fid] ∧
    ∀ c ∈ issued b (b.Add item).2, isCreate BitwardenItemObjectType c = false := by
  obtain ⟨found, hfound⟩ := findItem_isSome item.Name items hmem
  have hg := Get_listed b out fid items item.Name hsync hget hout hid hlist hitems
  rw [hfound] at hg
  have hadd : b.Add item = (Result.error (Err.ItemAlreadyExistsError item.Name),
      { b with
        FolderID := some fid,
        log := b.log ++ [syncCmd, getCmd BitwardenFolderObjectType BitwardenFolderName,
          listCmd BitwardenItemObjectTypePlural fid] }) := by
    simp only [Bitwarden.Add, hg]
  have hiss : issued b (b.Add item).2 = [syncCmd,
      getCmd BitwardenFolderObjectType BitwardenFolderName,
      listCmd BitwardenItemObjectTypePlural fid] := by
    rw [hadd]; simp [issued]
  refine ⟨by rw [hadd], itemExists_text t item.Name, hiss, ?_⟩
  intro c hc
  rw [hiss] at hc
  simp only [List.mem_cons, List.mem_singleton, List.not_mem_nil, or_false] at hc
  rcases hc with rfl | rfl | rfl
  · decide
  · decide
  · simp only [isCreate, listCmd, List.take]
    decide

set_option maxRecDepth 100000 in
theorem Add_existing_item_rejected_witness :
    ((vault listJSON).Add ⟨[], ascii "test1", [], none⟩).1 =
      Result.error (Err.ItemAlreadyExistsError (ascii "test1")) ∧
    (Err.ItemAlreadyExistsError (ascii "test1")).Error plainTexts =
      ascii "item test1 already exists" ∧
    issued (vault listJSON) ((vault listJSON).Add ⟨[], ascii "test1", [], none⟩).2 =
      [syncCmd, getCmd BitwardenFolderObjectType BitwardenFolderName,
        listCmd BitwardenItemObjectTypePlural folderUUID] := by
  have h := Add_existing_item_rejected (vault listJSON) ⟨[], ascii "test1", [], none⟩
    ⟨some folderUUID, ascii "ssh-agent", []⟩ folderUUID
    [⟨ascii "6fe3bf5f", ascii "test1", [], none⟩, ⟨ascii "6fe3bf60", ascii "test2", [], none⟩]
    plainTexts (by decide) (by decide) (by decide) rfl (by decide) (by decide)
    ⟨⟨ascii "6fe3bf5f", ascii "test1", [], none⟩, by simp, rfl⟩
  exact ⟨h.1, h.2.1, h.2.2.1⟩

theorem Bw_fail (b : Bitwarden) (args : List Bytes) (e : Bytes)
    (h : (b.Commander b.log (BitwardenCommand :: args)).err = some e) :
    b.Bw args = (((b.Commander b.log (BitwardenCommand :: args)).stdout,
      some (Err.ExecutionFailedError (Join (BitwardenCommand :: args) (ascii " "))
        (e ++ ascii ": " ++ (b.Commander b.log (BitwardenCommand :: args)).stderr))),
      { b with log := b.log ++ [BitwardenCommand :: args] }) := by
  simp [Bitwarden.Bw, h]

/-- C2 (amended). When the existence pre-check of `Add` (the call of `Get`)
fails, with the not-found error or with any other error, `Add` does not
return that error: it issues one `bw create item` invocation after the
invocations of `Get`, with the folder id the adapter holds at that point, and
returns the outcome of that invocation, nil or its `ExecutionFailedError`. -/
theorem Add_creates_after_any_Get_error (b : Bitwarden) (item : Item) (e : Err)
    (h : (b.Get ⟨item.Name⟩).1 = Result.error e) :
    (b.Add item).2.log = (b.Get ⟨item.Name⟩).2.log ++
      [createCmd BitwardenItemObjectType
        (itemRecord item (b.Get ⟨item.Name⟩).2.FolderID).Encode] ∧
    (b.Add item).1 =
      (match ((b.Get ⟨item.Name⟩).2.Commander (b.Get ⟨item.Name⟩).2.log
          (createCmd BitwardenItemObjectType
            (itemRecord item (b.Get ⟨item.Name⟩).2.FolderID).Encode)).err with
       | none => Result.ok ()
       | some x => Result.error (executionFailed
           (createCmd BitwardenItemObjectType
             (itemRecord item (b.Get ⟨item.Name⟩).2.FolderID).Encode)
           ((b.Get ⟨item.Name⟩).2.Commander (b.Get ⟨item.Name⟩).2.log
             (createCmd BitwardenItemObjectType
               (itemRecord item (b.Get ⟨item.Name⟩).2.FolderID).Encode)) x)) := by
  rcases hg : b.Get ⟨item.Name⟩ with ⟨r, b1⟩
  rw [hg] at h
  simp only at h
  subst h
  simp only [Bitwarden.Add, hg, Item.EncodeValues, BitwardenItemTypeLogin, createCmd,
    executionFailed]
  change _ ∧ _ = (match (b1.Commander b1.log [BitwardenCommand, ascii "create",
    BitwardenItemObjectType, (itemRecord item b1.FolderID).Encode]).err with
    | none => _ | some x => _)
  cases hc : (b1.Commander b1.log [BitwardenCommand, ascii "create", BitwardenItemObjectType,
    (itemRecord item b1.FolderID).Encode]).err with
  | none =>
    have hbw := Bw_ok b1 _ hc
    simp only [itemRecord] at hbw
    simp [hbw, itemRecord]
  | some x =>
    have hbw := Bw_fail b1 _ x hc
    simp only [itemRecord] at hbw
    simp [hbw, itemRecord]

set_option maxRecDepth 100000 in
theorem Add_creates_after_any_Get_error_witness :
    ((vault (ascii "[]")).Add ⟨[], ascii "test", keyPair, none⟩).2.log =
      [syncCmd, getCmd BitwardenFolderObjectType BitwardenFolderName,
       listCmd BitwardenItemObjectTypePlural folderUUID,
       createCmd BitwardenItemObjectType
         (itemRecord ⟨[], ascii "test", keyPair, none⟩ (some folderUUID)).Encode] := by
  have h := (Add_creates_after_any_Get_error (vault (ascii "[]")) ⟨[], ascii "test", keyPair, none⟩
    (Err.Errorf errNoGetF [BitwardenItemObjectType, ascii "test", BitwardenFolderName])
    (by decide)).1
  rw [h]
  decide

set_option maxRecDepth 100000 in
/-- C2, as stated, fails when `bw sync` fails: `Get` fails with the
`ExecutionFailedError` of `bw sync`, which is not the not-found error, and
`Add` returns no error and has issued a `bw create item` invocation. -/
theorem Add_propagates_Get_error_counterexample :
    (vaultSyncFails.Get ⟨ascii "test"⟩).1 =
      Result.error (Err.ExecutionFailedError (ascii "bw sync") (ascii "exit status 1: some err")) ∧
    (vaultSyncFails.Add ⟨[], ascii "test", keyPair, none⟩).1 = Result.ok () ∧
    issued vaultSyncFails (vaultSyncFails.Add ⟨[], ascii "test", keyPair, none⟩).2 =
      [syncCmd, createCmd BitwardenItemObjectType (ascii "eyJpZCI6bnVsbCwidHlwZSI6MSwibmFtZSI6InRlc3QiLCJub3RlcyI6Ilczc2libUZ0WlNJNkluQnlhWFpoZEdWZmEyVjVJaXdpZG1Gc2RXVWlPaUpZSW4wc2V5SnVZVzFsSWpvaWNIVmliR2xqWDJ0bGVTSXNJblpoYkhWbElqb2lXU0o5WFE9PSIsImxvZ2luIjoidGVzdCIsImZvbGRlcklkIjpudWxsfQ==")] := by
  decide

/-- C3 (amended). After a list response that decodes to `items`, `Get` of
the name `n` returns the first item in list order whose name is exactly `n`;
if no item has that name (the empty list included), `Get` returns no item and
the error `object "item" with name <q> not found in "ssh-agent"`, where `<q>`
is `n` as the verb `%q` writes it: `n` itself between double quotes when `n`
is printable ASCII without a double quote or a backslash. -/
theorem Get_first_match_or_not_found (b : Bitwarden) (out : BitwardenItemOut) (fid : Bytes)
    (items : List Item) (n : Bytes) (t : Texts)
    (hsync : (b.Commander b.log syncCmd).err = none)
    (hget : (b.Commander (b.log ++ [syncCmd])
      (getCmd BitwardenFolderObjectType BitwardenFolderName)).err = none)
    (hout : DecodeBitwardenOut (b.Commander (b.log ++ [syncCmd])
      (getCmd BitwardenFolderObjectType BitwardenFolderName)).stdout = Result.ok out)
    (hid : out.ID = some fid)
    (hlist : (b.Commander (b.log ++ [syncCmd, getCmd BitwardenFolderObjectType BitwardenFolderName])
      (listCmd BitwardenItemObjectTypePlural fid)).err = none)
    (hitems : DecodeItems (b.Commander
      (b.log ++ [syncCmd, getCmd BitwardenFolderObjectType BitwardenFolderName])
      (listCmd BitwardenItemObjectTypePlural fid)).stdout = Result.ok items) :
    (∀ pre item post, items = pre ++ item :: post → item.Name = n → (∀ x ∈ pre, x.Name ≠ n) →
      (b.Get ⟨n⟩).1 = Result.ok item) ∧
    ((∀ x ∈ items, x.Name ≠ n) →
      ∃ e, (b.Get ⟨n⟩).1 = Result.error e ∧
        e.Error t = ascii "object \"item\" with name " ++ strconv.Quote t.printTable n ++
          ascii " not found in \"ssh-agent\"" ∧
        (plainASCII n →
          e.Error t = ascii "object \"item\" with name \"" ++ n ++
            ascii "\" not found in \"ssh-agent\"")) := by
  have hg := Get_listed b out fid items n hsync hget hout hid hlist hitems
  constructor
  · intro pre item post hsplit hname hpre
    rw [hg, hsplit, findItem_first n pre item post hname hpre]
  · intro hnone
    rw [hg, findItem_none n items hnone]
    refine ⟨_, rfl, errNoGetF_text t.printTable n, ?_⟩
    intro hplain
    show Sprintf t.printTable errNoGetF [BitwardenItemObjectType, n, BitwardenFolderName] = _
    rw [errNoGetF_text, Quote_plain t.printTable n hplain]
    simp
    rfl

set_option maxRecDepth 100000 in
theorem Get_first_match_or_not_found_witness :
    ((vault listJSON).Get ⟨ascii "test2"⟩).1 =
      Result.ok ⟨ascii "6fe3bf60", ascii "test2", [], none⟩ := by
  have h := (Get_first_match_or_not_found (vault listJSON)
    ⟨some folderUUID, ascii "ssh-agent", []⟩ folderUUID
    [⟨ascii "6fe3bf5f", ascii "test1", [], none⟩, ⟨ascii "6fe3bf60", ascii "test2", [], none⟩]
    (ascii "test2") plainTexts
    (by decide) (by decide) (by decide) rfl (by decide) (by decide)).1
  exact h [⟨ascii "6fe3bf5f", ascii "test1", [], none⟩] ⟨ascii "6fe3bf60", ascii "test2", [], none⟩ []
    rfl rfl (by decide)

set_option maxRecDepth 100000 in
/-- C3, as stated, fails for a name with a double quote: for the name `a"b`
and the empty list the error text carries the name as `%q` escapes it,
`"a\"b"`, not the name itself between double quotes. -/
theorem Get_not_found_text_counterexample :
    ∃ e, ((vault (ascii "[]")).Get ⟨ascii "a\"b"⟩).1 = Result.error e ∧
      e.Error plainTexts = ascii "object \"item\" with name \"a\\\"b\" not found in \"ssh-agent\"" ∧
      e.Error plainTexts ≠ ascii "object \"item\" with name \"a\"b\" not found in \"ssh-agent\"" :=
  ⟨Err.Errorf errNoGetF [BitwardenItemObjectType, ascii "a\"b", BitwardenFolderName],
    by decide, by decide, by decide⟩

theorem folderRecord_Marshal (name : Bytes) :
    (folderRecord name).Marshal =
      ascii "\x7b\"id\":null,\"type\":0,\"name\":" ++ json.appendString name ++
        ascii ",\"notes\":\"\",\"login\":\"\",\"folderId\":null\x7d" := by
  simp only [BitwardenItemIn.Marshal, folderRecord, json.appendStringPtr, List.append_assoc]
  rfl

/-- The result of `GetFolder` as a function of the output of the lookup. -/
theorem GetFolder_eq (b : Bitwarden) (name : Bytes) :
    b.GetFolder name =
      ((match (b.Commander b.log (getCmd BitwardenFolderObjectType name)).err with
        | some x => Result.error (Err.Wrapf
            (executionFailed (getCmd BitwardenFolderObjectType name)
              (b.Commander b.log (getCmd BitwardenFolderObjectType name)) x)
            errNoParseGetF [BitwardenFolderObjectType, name])
        | none =>
          match DecodeBitwardenOut
            (b.Commander b.log (getCmd BitwardenFolderObjectType name)).stdout with
          | Result.error err => Result.error
              (Err.Wrapf err errNoParseGetF [BitwardenFolderObjectType, BitwardenFolderName])
          | Result.panic => Result.panic
          | Result.ok out => Result.ok out.ID),
       { b with log := b.log ++ [getCmd BitwardenFolderObjectType name] }) := by
  simp only [getCmd, executionFailed]
  cases hc : (b.Commander b.log
      [BitwardenCommand, ascii "get", BitwardenFolderObjectType, name]).err with
  | some x => simp only [Bitwarden.GetFolder, Bw_fail b _ x hc]
  | none =>
    simp only [Bitwarden.GetFolder, Bw_ok b _ hc]
    cases DecodeBitwardenOut
      (b.Commander b.log [BitwardenCommand, ascii "get", BitwardenFolderObjectType, name]).stdout
      <;> rfl

theorem DecodeBitwardenOut_not_panic (stdout : Bytes) :
    DecodeBitwardenOut stdout ≠ Result.panic := by
  unfold DecodeBitwardenOut
  split <;> simp

/-- The result of `EnsureFolder` when the lookup fails, as a function of the
output of the creation. -/
theorem EnsureFolder_of_lookup_error (b : Bitwarden) (name : Bytes) (e : Err)
    (h : (b.GetFolder name).1 = Result.error e) :
    b.EnsureFolder name =
      ((match (b.Commander (b.log ++ [getCmd BitwardenFolderObjectType name])
          (createCmd BitwardenFolderObjectType (folderRecord name).Encode)).err with
        | some x => Result.error
            (executionFailed (createCmd BitwardenFolderObjectType (folderRecord name).Encode)
              (b.Commander (b.log ++ [getCmd BitwardenFolderObjectType name])
                (createCmd BitwardenFolderObjectType (folderRecord name).Encode)) x)
        | none =>
          match DecodeBitwardenOut
            (b.Commander (b.log ++ [getCmd BitwardenFolderObjectType name])
              (createCmd BitwardenFolderObjectType (folderRecord name).Encode)).stdout with
          | Result.error err => Result.error
              (Err.Wrapf err errNoParseGetF [BitwardenFolderObjectType, BitwardenFolderName])
          | Result.panic => Result.panic
          | Result.ok out => Result.ok out.ID),
       { b with
         log := b.log ++ [getCmd BitwardenFolderObjectType name,
           createCmd BitwardenFolderObjectType (folderRecord name).Encode] }) := by
  rcases hg : b.GetFolder name with ⟨r, b1⟩
  have hlog := GetFolder_eq b name
  rw [hg] at hlog h
  simp only at h
  subst h
  have hb1 : b1 = { b with log := b.log ++ [getCmd BitwardenFolderObjectType name] } :=
    congrArg Prod.snd hlog
  subst hb1
  simp only [createCmd, executionFailed, folderRecord]
  cases hc : (b.Commander (b.log ++ [getCmd BitwardenFolderObjectType name])
      [BitwardenCommand, ascii "create", BitwardenFolderObjectType,
        BitwardenItemIn.Encode ⟨none, 0, name, [], [], none⟩]).err with
  | some x =>
    have hbw := Bw_fail { b with log := b.log ++ [getCmd BitwardenFolderObjectType name] } _ x hc
    simp only [Bitwarden.EnsureFolder, hg, hbw]
    simp
  | none =>
    have hbw := Bw_ok { b with log := b.log ++ [getCmd BitwardenFolderObjectType name] } _ hc
    simp only [Bitwarden.EnsureFolder, hg, hbw]
    cases DecodeBitwardenOut (b.Commander (b.log ++ [getCmd BitwardenFolderObjectType name])
      [BitwardenCommand, ascii "create", BitwardenFolderObjectType,
        BitwardenItemIn.Encode ⟨none, 0, name, [], [], none⟩]).stdout <;> simp


/-- The result of `EnsureFolder` when the lookup succeeds. -/
theorem EnsureFolder_of_lookup_ok (b : Bitwarden) (name : Bytes) (v : Option Bytes)
    (hv : (b.GetFolder name).1 = Result.ok v) :
    b.EnsureFolder name = (Result.ok v,
      { b with log := b.log ++ [getCmd BitwardenFolderObjectType name] }) := by
  have hlog := GetFolder_eq b name
  rcases hg : b.GetFolder name with ⟨r, b1⟩
  rw [hg] at hv hlog
  simp only at hv
  subst hv
  have hb1 : b1 = { b with log := b.log ++ [getCmd BitwardenFolderObjectType name] } :=
    congrArg Prod.snd hlog
  subst hb1
  simp only [Bitwarden.EnsureFolder, hg]

theorem GetFolder_not_panic (b : Bitwarden) (name : Bytes) :
    (b.GetFolder name).1 ≠ Result.panic := by
  rw [GetFolder_eq]
  simp only
  split
  · simp
  · split <;> simp_all [DecodeBitwardenOut_not_panic]

/-- C6. `EnsureFolder` first issues the one lookup `bw get folder <name>` and
after it at most one invocation, the creation.  If the lookup succeeds with a
record whose id is `i`, it returns `i` and issues nothing else.  If the lookup
fails, it issues exactly one `bw create folder <payload>`, the payload being
the base64 of the JSON object
`{"id":null,"type":0,"name":<name>,"notes":"","login":"","folderId":null}`,
and returns the id decoded from the response of a creation that succeeds. -/
theorem EnsureFolder_lookup_then_create (b : Bitwarden) (name : Bytes) :
    (issued b (b.EnsureFolder name).2 = [getCmd BitwardenFolderObjectType name] ∨
     issued b (b.EnsureFolder name).2 = [getCmd BitwardenFolderObjectType name,
       createCmd BitwardenFolderObjectType (folderRecord name).Encode]) ∧
    (∀ out i, (b.Commander b.log (getCmd BitwardenFolderObjectType name)).err = none →
      DecodeBitwardenOut (b.Commander b.log (getCmd BitwardenFolderObjectType name)).stdout
        = Result.ok out →
      out.ID = some i →
      (b.EnsureFolder name).1 = Result.ok (some i) ∧
      issued b (b.EnsureFolder name).2 = [getCmd BitwardenFolderObjectType name]) ∧
    (∀ e, (b.GetFolder name).1 = Result.error e →
      issued b (b.EnsureFolder name).2 = [getCmd BitwardenFolderObjectType name,
        createCmd BitwardenFolderObjectType (folderRecord name).Encode] ∧
      (folderRecord name).Encode = base64.EncodeToString
        (ascii "\x7b\"id\":null,\"type\":0,\"name\":" ++ json.appendString name ++
          ascii ",\"notes\":\"\",\"login\":\"\",\"folderId\":null\x7d") ∧
      ∀ out, (b.Commander (b.log ++ [getCmd BitwardenFolderObjectType name])
          (createCmd BitwardenFolderObjectType (folderRecord name).Encode)).err = none →
        DecodeBitwardenOut (b.Commander (b.log ++ [getCmd BitwardenFolderObjectType name])
          (createCmd BitwardenFolderObjectType (folderRecord name).Encode)).stdout
          = Result.ok out →
        (b.EnsureFolder name).1 = Result.ok out.ID) := by
  have hfound := EnsureFolder_of_lookup_ok b name
  refine ⟨?_, ?_, ?_⟩
  · rcases hr : (b.GetFolder name).1 with v | e | _
    · left
      rw [hfound v hr]
      simp [issued]
    · right
      rw [EnsureFolder_of_lookup_error b name e hr]
      simp [issued]
    · exact absurd hr (GetFolder_not_panic b name)
  · intro out i herr hout hid
    have hr : (b.GetFolder name).1 = Result.ok (some i) := by
      rw [GetFolder_eq]
      simp only [herr, hout, hid]
    rw [hfound (some i) hr]
    simp [issued]
  · intro e he
    rw [EnsureFolder_of_lookup_error b name e he]
    refine ⟨by simp [issued], ?_, ?_⟩
    · rw [← folderRecord_Marshal]
      rfl
    · intro out herr hout
      simp only [herr, hout]

set_option maxRecDepth 100000 in
theorem EnsureFolder_lookup_then_create_witness :
    ((vaultFolderLookup (printed notFoundText)).EnsureFolder (ascii "fooFolder")).1 =
      Result.ok (some folderUUID) ∧
    issued (vaultFolderLookup (printed notFoundText))
      ((vaultFolderLookup (printed notFoundText)).EnsureFolder (ascii "fooFolder")).2 =
      [getCmd BitwardenFolderObjectType (ascii "fooFolder"),
       createCmd BitwardenFolderObjectType (ascii "eyJpZCI6bnVsbCwidHlwZSI6MCwibmFtZSI6ImZvb0ZvbGRlciIsIm5vdGVzIjoiIiwibG9naW4iOiIiLCJmb2xkZXJJZCI6bnVsbH0=")] := by
  have h := (EnsureFolder_lookup_then_create (vaultFolderLookup (printed notFoundText))
    (ascii "fooFolder")).2.2
    (Err.Wrapf (Err.Wrap (Err.lib LibError.jsonSyntaxError) errNoParseList) errNoParseGetF
      [BitwardenFolderObjectType, BitwardenFolderName]) (by decide)
  refine ⟨h.2.2 ⟨some folderUUID, ascii "ssh-agent", []⟩ (by decide) (by decide), ?_⟩
  rw [h.1]
  decide

/-- C7 (amended). When the lookup `bw get folder <name>` of `EnsureFolder`
fails, with whatever error, an execution failure of the tool included,
`EnsureFolder` does not return that error: it issues one `bw create folder`
invocation and returns what the creation gives, its `ExecutionFailedError`,
the parse error of its response or the id decoded from its response. -/
theorem EnsureFolder_creates_after_any_lookup_error (b : Bitwarden) (name : Bytes) (e : Err)
    (h : (b.GetFolder name).1 = Result.error e) :
    issued b (b.EnsureFolder name).2 = [getCmd BitwardenFolderObjectType name,
      createCmd BitwardenFolderObjectType (folderRecord name).Encode] ∧
    (b.EnsureFolder name).1 =
      (match (b.Commander (b.log ++ [getCmd BitwardenFolderObjectType name])
          (createCmd BitwardenFolderObjectType (folderRecord name).Encode)).err with
        | some x => Result.error
            (executionFailed (createCmd BitwardenFolderObjectType (folderRecord name).Encode)
              (b.Commander (b.log ++ [getCmd BitwardenFolderObjectType name])
                (createCmd BitwardenFolderObjectType (folderRecord name).Encode)) x)
        | none =>
          match DecodeBitwardenOut
            (b.Commander (b.log ++ [getCmd BitwardenFolderObjectType name])
              (createCmd BitwardenFolderObjectType (folderRecord name).Encode)).stdout with
          | Result.error err => Result.error
              (Err.Wrapf err errNoParseGetF [BitwardenFolderObjectType, BitwardenFolderName])
          | Result.panic => Result.panic
          | Result.ok out => Result.ok out.ID) := by
  rw [EnsureFolder_of_lookup_error b name e h]
  exact ⟨by simp [issued], rfl⟩

set_option maxRecDepth 100000 in
theorem EnsureFolder_creates_after_any_lookup_error_witness :
    ((vaultFolderLookup (failed (ascii "some err"))).EnsureFolder (ascii "fooFolder")).1 =
      Result.ok (some folderUUID) := by
  rw [(EnsureFolder_creates_after_any_lookup_error (vaultFolderLookup (failed (ascii "some err")))
    (ascii "fooFolder")
    (Err.Wrapf (Err.ExecutionFailedError (ascii "bw get folder fooFolder")
      (ascii "exit status 1: some err")) errNoParseGetF
      [BitwardenFolderObjectType, ascii "fooFolder"]) (by decide)).2]
  decide

set_option maxRecDepth 100000 in
/-- C7, as stated, fails when the lookup is an execution failure: the lookup
of `fooFolder` exits with status 1, `GetFolder` fails with the wrapped
`ExecutionFailedError`, and `EnsureFolder` returns no error but the id of a
folder it has created with a `bw create folder` invocation. -/
theorem EnsureFolder_propagates_lookup_error_counterexample :
    ((vaultFolderLookup (failed (ascii "some err"))).GetFolder (ascii "fooFolder")).1 =
      Result.error (Err.Wrapf (Err.ExecutionFailedError (ascii "bw get folder fooFolder")
        (ascii "exit status 1: some err")) errNoParseGetF
        [BitwardenFolderObjectType, ascii "fooFolder"]) ∧
    ((vaultFolderLookup (failed (ascii "some err"))).EnsureFolder (ascii "fooFolder")).1 =
      Result.ok (some folderUUID) ∧
    issued (vaultFolderLookup (failed (ascii "some err")))
      ((vaultFolderLookup (failed (ascii "some err"))).EnsureFolder (ascii "fooFolder")).2 =
      [getCmd BitwardenFolderObjectType (ascii "fooFolder"),
       createCmd BitwardenFolderObjectType (ascii "eyJpZCI6bnVsbCwidHlwZSI6MCwibmFtZSI6ImZvb0ZvbGRlciIsIm5vdGVzIjoiIiwibG9naW4iOiIiLCJmb2xkZXJJZCI6bnVsbH0=")] := by
  decide

theorem decodeItemsLoop_all (outs : List BitwardenItemOut) (h : ∀ o ∈ outs, o.ID ≠ none) :
    ∀ acc, decodeItemsLoop outs acc =
      Result.ok (acc ++ outs.map (fun o => ⟨o.ID.getD [], o.Name, [], none⟩)) := by
  induction outs with
  | nil => intro acc; simp [decodeItemsLoop]
  | cons o outs ih =>
    intro acc
    have ho : o.ID ≠ none := h o (List.mem_cons_self o outs)
    cases hid : o.ID with
    | none => exact absurd hid ho
    | some id =>
      simp only [decodeItemsLoop, hid]
      rw [ih (fun x hx => h x (List.mem_cons_of_mem o hx))]
      simp [hid]

/-- C8. `DecodeItems` tells the empty list from malformed output: the input
`[]` gives the empty sequence and no error, and an input that is not valid
JSON gives no items but the parse error wrapped as `cannot parse list: ...`,
never the empty sequence without an error. -/
theorem DecodeItems_empty_or_malformed (stdout : Bytes) (t : Texts)
    (h : json.Valid stdout = false) :
    DecodeItems (ascii "[]") = Result.ok [] ∧
    (∃ cause, DecodeItems stdout = Result.error (Err.Wrap cause errNoParseList) ∧
      (Err.Wrap cause errNoParseList).Error t =
        ascii "cannot parse list" ++ (ascii ": " ++ cause.Error t)) ∧
    DecodeItems stdout ≠ Result.ok [] := by
  have hp : json.parse stdout = none := by
    simpa [json.Valid] using h
  have hd : DecodeItems stdout =
      Result.error (Err.Wrap (Err.lib LibError.jsonSyntaxError) errNoParseList) := by
    simp [DecodeItems, DecodeBitwardenOuts, json.Unmarshal, hp]
  refine ⟨by decide, ⟨_, hd, ?_⟩, ?_⟩
  · simp [Err.Error, errNoParseList]
  · rw [hd]; simp

theorem DecodeItems_empty_or_malformed_witness :
    ∃ cause, DecodeItems notFoundText = Result.error (Err.Wrap cause errNoParseList) :=
  (DecodeItems_empty_or_malformed notFoundText plainTexts (by decide)).2.1.imp (fun _ h => h.1)

/-- C9. When the output decodes to wire records that all carry an id,
`DecodeItems` returns as many items, the k-th with the id and the name of
the k-th record, in the order of the output, and with no values, whatever the
notes of the record are. -/
theorem DecodeItems_keeps_order (stdout : Bytes) (outs : List BitwardenItemOut)
    (h : DecodeBitwardenOuts stdout = Result.ok outs) (hid : ∀ o ∈ outs, o.ID ≠ none) :
    ∃ items, DecodeItems stdout = Result.ok items ∧ items.length = outs.length ∧
      ∀ (k : Nat) (o : BitwardenItemOut), outs[k]? = some o →
        ∃ item : Item, items[k]? = some item ∧ some item.ID = o.ID ∧ item.Name = o.Name ∧
          item.Values = [] := by
  refine ⟨outs.map (fun o => ⟨o.ID.getD [], o.Name, [], none⟩), ?_, by simp, ?_⟩
  · simp [DecodeItems, h, decodeItemsLoop_all outs hid []]
  · intro k o hk
    refine ⟨⟨o.ID.getD [], o.Name, [], none⟩, by simp [hk], ?_, rfl, rfl⟩
    have ho : o.ID ≠ none := hid o (List.getElem?_mem hk)
    cases hoid : o.ID with
    | none => exact absurd hoid ho
    | some id => rfl

set_option maxRecDepth 100000 in
theorem DecodeItems_keeps_order_witness :
    ∃ items, DecodeItems listJSON = Result.ok items ∧ items.length = 2 :=
  (DecodeItems_keeps_order listJSON
    [⟨some (ascii "6fe3bf5f"), ascii "test1", base64.EncodeToString (marshalFields keyPair)⟩,
     ⟨some (ascii "6fe3bf60"), ascii "test2", base64.EncodeToString (marshalFields keyPair)⟩]
    (by decide) (by decide)).imp (fun _ h => ⟨h.1, h.2.1⟩)

/-- What `EnsureFolder` leaves behind: the lookup and at most the creation. -/
theorem EnsureFolder_state (b : Bitwarden) (name : Bytes) :
    (b.EnsureFolder name).2.Commander = b.Commander ∧
    ∃ rest, (b.EnsureFolder name).2.log = b.log ++ getCmd BitwardenFolderObjectType name :: rest ∧
      (rest = [] ∨ rest = [createCmd BitwardenFolderObjectType (folderRecord name).Encode]) := by
  rcases hr : (b.GetFolder name).1 with v | e | _
  · rw [EnsureFolder_of_lookup_ok b name v hr]
    exact ⟨rfl, [], rfl, Or.inl rfl⟩
  · rw [EnsureFolder_of_lookup_error b name e hr]
    exact ⟨rfl, _, rfl, Or.inr rfl⟩
  · exact absurd hr (GetFolder_not_panic b name)

/-- A `Sync` that returns no error has issued `bw sync`, the folder lookup
and at most the creation of the folder. -/
theorem Sync_ok_log (b : Bitwarden) (h : b.Sync.1 = Result.ok ()) :
    b.Sync.2.Commander = b.Commander ∧
    ∃ rest, b.Sync.2.log = b.log ++ syncCmd ::
        getCmd BitwardenFolderObjectType BitwardenFolderName :: rest ∧
      (rest = [] ∨
       rest = [createCmd BitwardenFolderObjectType (folderRecord BitwardenFolderName).Encode]) := by
  cases hc : (b.Commander b.log [BitwardenCommand, ascii "sync"]).err with
  | some x =>
    rw [Bitwarden.Sync, Bw_fail b _ x hc] at h
    simp at h
  | none =>
    have hbw := Bw_ok b _ hc
    have hst := EnsureFolder_state { b with log := b.log ++ [syncCmd] } BitwardenFolderName
    simp only [syncCmd] at hst
    simp only [Bitwarden.Sync, hbw] at h ⊢
    rcases hE : Bitwarden.EnsureFolder
      { b with log := b.log ++ [[BitwardenCommand, ascii "sync"]] } BitwardenFolderName
      with ⟨r, b2⟩
    rw [hE] at hst h
    obtain ⟨hcmd, rest, hlog, hrest⟩ := hst
    cases r with
    | ok v => exact ⟨hcmd, rest, by simpa [syncCmd] using hlog, hrest⟩
    | error e => simp at h
    | panic => simp at h

/-- The result of `Get` once `Sync` has returned no error and holds a folder
id, as a function of the output of the list invocation. -/
theorem Get_of_Sync_ok (b : Bitwarden) (fid : Bytes) (items : List Item) (n : Bytes)
    (hs : b.Sync.1 = Result.ok ()) (hfid : b.Sync.2.FolderID = some fid)
    (hlist : (b.Sync.2.Commander b.Sync.2.log
      (listCmd BitwardenItemObjectTypePlural fid)).err = none)
    (hitems : DecodeItems (b.Sync.2.Commander b.Sync.2.log
      (listCmd BitwardenItemObjectTypePlural fid)).stdout = Result.ok items) :
    b.Get ⟨n⟩ =
      ((match findItem n items with
        | some item => Result.ok item
        | none => Result.error
            (Err.Errorf errNoGetF [BitwardenItemObjectType, n, BitwardenFolderName])),
       { b.Sync.2 with log := b.Sync.2.log ++ [listCmd BitwardenItemObjectTypePlural fid] }) := by
  rcases hS : b.Sync with ⟨r, b1⟩
  rw [hS] at hs hfid hlist hitems
  simp only at hs hfid hlist hitems
  subst hs
  simp only [listCmd] at hlist hitems
  simp only [Bitwarden.Get, hS, hfid, Bw_ok b1 _ hlist, hitems]
  cases findItem n items <;> simp [listCmd]

/-- The wire record of an item, written out. -/
theorem itemRecord_Marshal (item : Item) (fid : Bytes) :
    (itemRecord item (some fid)).Marshal =
      ascii "\x7b\"id\":null,\"type\":1,\"name\":" ++ json.appendString item.Name ++
        ascii ",\"notes\":" ++
        json.appendString (base64.EncodeToString (marshalFields item.Values)) ++
        ascii ",\"login\":" ++ json.appendString item.Name ++
        ascii ",\"folderId\":" ++ json.appendString fid ++ ascii "\x7d" := by
  simp only [BitwardenItemIn.Marshal, itemRecord, json.appendStringPtr, List.append_assoc]
  rfl

/-- C10 (amended). For an item with at least one field: when `Sync` succeeds
and resolves the folder id, the list response decodes to items none of which
has the item's name, and the creation succeeds, `Add` returns no error and
has issued, after `bw sync`, the folder lookup (with the creation of the
folder at most) and `bw list items`, exactly one `bw create item <payload>`,
as its last invocation.  The payload is the base64 of the JSON object with id
null, type 1, name and login the item's name, folderId the resolved id and
notes the base64 of the JSON array of the `{name, value}` objects of the
item's fields in their order.  The notes of an item without fields are left
out of the statement. -/
theorem Add_absent_item_creates_once (b : Bitwarden) (item : Item) (fid : Bytes)
    (items : List Item) (_hvalues : item.Values ≠ [])
    (hs : b.Sync.1 = Result.ok ()) (hfid : b.Sync.2.FolderID = some fid)
    (hlist : (b.Sync.2.Commander b.Sync.2.log
      (listCmd BitwardenItemObjectTypePlural fid)).err = none)
    (hitems : DecodeItems (b.Sync.2.Commander b.Sync.2.log
      (listCmd BitwardenItemObjectTypePlural fid)).stdout = Result.ok items)
    (habsent : ∀ x ∈ items, x.Name ≠ item.Name)
    (hcreate : (b.Sync.2.Commander
      (b.Sync.2.log ++ [listCmd BitwardenItemObjectTypePlural fid])
      (createCmd BitwardenItemObjectType (itemRecord item (some fid)).Encode)).err = none) :
    (b.Add item).1 = Result.ok () ∧
    (∃ rest, issued b (b.Add item).2 =
        syncCmd :: getCmd BitwardenFolderObjectType BitwardenFolderName :: rest ++
          [listCmd BitwardenItemObjectTypePlural fid,
           createCmd BitwardenItemObjectType (itemRecord item (some fid)).Encode] ∧
      (rest = [] ∨
       rest = [createCmd BitwardenFolderObjectType (folderRecord BitwardenFolderName).Encode])) ∧
    (issued b (b.Add item).2).filter (isCreate BitwardenItemObjectType) =
      [createCmd BitwardenItemObjectType (itemRecord item (some fid)).Encode] ∧
    (itemRecord item (some fid)).Encode = base64.EncodeToString
      (ascii "\x7b\"id\":null,\"type\":1,\"name\":" ++ json.appendString item.Name ++
        ascii ",\"notes\":" ++
        json.appendString (base64.EncodeToString (marshalFields item.Values)) ++
        ascii ",\"login\":" ++ json.appendString item.Name ++
        ascii ",\"folderId\":" ++ json.appendString fid ++ ascii "\x7d") := by
  have hg := Get_of_Sync_ok b fid items item.Name hs hfid hlist hitems
  rw [findItem_none item.Name items habsent] at hg
  obtain ⟨hcmd, rest, hlog, hrest⟩ := Sync_ok_log b hs
  have hbw := Bw_ok
    { b.Sync.2 with log := b.Sync.2.log ++ [listCmd BitwardenItemObjectTypePlural fid] }
    [ascii "create", BitwardenItemObjectType, (itemRecord item (some fid)).Encode] hcreate
  simp only [itemRecord, hfid] at hbw
  have hadd : b.Add item = (Result.ok (),
      { b.Sync.2 with
        log := b.Sync.2.log ++ [listCmd BitwardenItemObjectTypePlural fid] ++
          [createCmd BitwardenItemObjectType (itemRecord item (some fid)).Encode] }) := by
    simp only [Bitwarden.Add, hg, Item.EncodeValues, BitwardenItemTypeLogin, hfid, hbw]
    simp [createCmd, itemRecord, hfid]
  have hiss : issued b (b.Add item).2 =
      syncCmd :: getCmd BitwardenFolderObjectType BitwardenFolderName :: rest ++
        [listCmd BitwardenItemObjectTypePlural fid,
         createCmd BitwardenItemObjectType (itemRecord item (some fid)).Encode] := by
    rw [hadd]
    simp [issued, hlog]
  refine ⟨by rw [hadd], ⟨rest, hiss, hrest⟩, ?_, ?_⟩
  · rw [hiss]
    have h1 : isCreate BitwardenItemObjectType syncCmd = false := by decide
    have h2 : isCreate BitwardenItemObjectType
        (getCmd BitwardenFolderObjectType BitwardenFolderName) = false := by decide
    have h3 : isCreate BitwardenItemObjectType
        (listCmd BitwardenItemObjectTypePlural fid) = false := by
      simp only [isCreate, listCmd, List.take]; decide
    have h4 : ∀ p, isCreate BitwardenItemObjectType
        (createCmd BitwardenItemObjectType p) = true := by
      intro p; simp [isCreate, createCmd]
    have h5 : ∀ p, isCreate BitwardenItemObjectType
        (createCmd BitwardenFolderObjectType p) = false := by
      intro p; simp only [isCreate, createCmd, List.take]; decide
    rcases hrest with rfl | rfl <;> simp [List.filter, h1, h2, h3, h4, h5]
  · rw [← itemRecord_Marshal]
    rfl

set_option maxRecDepth 100000 in
theorem Add_absent_item_creates_once_witness :
    ((vault (ascii "[]")).Add ⟨[], ascii "test", keyPair, none⟩).1 = Result.ok () ∧
    (issued (vault (ascii "[]"))
        ((vault (ascii "[]")).Add ⟨[], ascii "test", keyPair, none⟩).2).filter
        (isCreate BitwardenItemObjectType) =
      [createCmd BitwardenItemObjectType (ascii "eyJpZCI6bnVsbCwidHlwZSI6MSwibmFtZSI6InRlc3QiLCJub3RlcyI6Ilczc2libUZ0WlNJNkluQnlhWFpoZEdWZmEyVjVJaXdpZG1Gc2RXVWlPaUpZSW4wc2V5SnVZVzFsSWpvaWNIVmliR2xqWDJ0bGVTSXNJblpoYkhWbElqb2lXU0o5WFE9PSIsImxvZ2luIjoidGVzdCIsImZvbGRlcklkIjoiOTExMGM2NTEtN2IzNy00YmVhLTg1ODAtYWY2NDAxM2E5YTkyIn0=")] := by
  have h := Add_absent_item_creates_once (vault (ascii "[]")) ⟨[], ascii "test", keyPair, none⟩
    folderUUID [] (by decide) (by decide) (by decide) (by decide) (by decide) (by simp)
    (by decide)
  refine ⟨h.1, ?_⟩
  rw [h.2.2.1]
  decide

set_option maxRecDepth 100000 in
/-- C10, as stated, fails when `bw sync` fails.  The name `test` is absent,
the list response being `[]`, and `Add` of the item `test` with the key pair
returns no error; but it has issued only `bw sync` and one `bw create item`,
with no folder lookup and no list before it, and the payload carries
`"folderId":null`, not an id resolved by `Sync`. -/
theorem Add_successful_after_failed_sync_counterexample :
    DecodeItems (vaultSyncFailsEmpty.Commander [syncCmd]
      (listCmd BitwardenItemObjectTypePlural folderUUID)).stdout = Result.ok [] ∧
    (vaultSyncFailsEmpty.Add ⟨[], ascii "test", keyPair, none⟩).1 = Result.ok () ∧
    issued vaultSyncFailsEmpty (vaultSyncFailsEmpty.Add ⟨[], ascii "test", keyPair, none⟩).2 =
      [syncCmd, createCmd BitwardenItemObjectType
        (itemRecord ⟨[], ascii "test", keyPair, none⟩ none).Encode] ∧
    (itemRecord ⟨[], ascii "test", keyPair, none⟩ none).Marshal =
      ascii "\x7b\"id\":null,\"type\":1,\"name\":\"test\",\"notes\":\"W3sibmFtZSI6InByaXZhdGVfa2V5IiwidmFsdWUiOiJYIn0seyJuYW1lIjoicHVibGljX2tleSIsInZhbHVlIjoiWSJ9XQ==\",\"login\":\"test\",\"folderId\":null\x7d" := by
  decide

set_option maxRecDepth 100000 in
/-- C5, the code at the failing input.  Over a vault that is empty until an
item is created and then lists the created record, whose notes are the
encoding of the key pair, `Add` of the item `test` with the key pair succeeds,
and the `Get` of `test` that follows returns the record with no values: `Get`
reads the list through `DecodeItems`, which never decodes the notes. -/
theorem Get_after_Add_returns_no_values :
    (vaultEmptyUntilAdd.Add ⟨[], ascii "test", keyPair, none⟩).1 = Result.ok () ∧
    DecodeBitwardenOuts listAfterAdd = Result.ok
      [⟨some (ascii "6fe3bf5f"), ascii "test",
        base64.EncodeToString (marshalFields keyPair)⟩] ∧
    ((vaultEmptyUntilAdd.Add ⟨[], ascii "test", keyPair, none⟩).2.Get ⟨ascii "test"⟩).1 =
      Result.ok ⟨ascii "6fe3bf5f", ascii "test", [], none⟩ ∧
    keyPair ≠ [] := by
  decide

/-! ## base64: decoding undoes encoding -/

theorem decodeMap_encodeStd (i : Nat) (h : i < 64) :
    base64.decodeMap (base64.encodeStd i) = some i := by
  unfold base64.encodeStd base64.decodeMap
  split_ifs <;> (congr 1; omega)

theorem encodeStd_ne (i : Nat) :
    base64.encodeStd i ≠ 61 ∧ base64.encodeStd i ≠ 10 ∧ base64.encodeStd i ≠ 13 := by
  unfold base64.encodeStd
  split_ifs <;> omega

theorem encodeStd_no_line_break (i : Nat) :
    (base64.encodeStd i != 10 && base64.encodeStd i != 13) = true := by
  have h := encodeStd_ne i
  simp [h.2.1, h.2.2]

theorem EncodeToString_no_line_break (bs : Bytes) :
    ∀ c ∈ base64.EncodeToString bs, (c != 10 && c != 13) = true := by
  induction bs using base64.EncodeToString.induct with
  | case1 => simp [base64.EncodeToString]
  | case2 a =>
    simp only [base64.EncodeToString, List.forall_mem_cons, encodeStd_no_line_break]
    simp
  | case3 a b =>
    simp only [base64.EncodeToString, List.forall_mem_cons, encodeStd_no_line_break]
    simp
  | case4 a b c rest ih =>
    simp only [base64.EncodeToString, List.forall_mem_cons, encodeStd_no_line_break]
    exact ⟨trivial, trivial, trivial, trivial, ih⟩

theorem decodeQuanta_EncodeToString (bs : Bytes) (h : ∀ b ∈ bs, b < 256) :
    base64.decodeQuanta (base64.EncodeToString bs) = some bs := by
  induction bs using base64.EncodeToString.induct with
  | case1 => rfl
  | case2 a =>
    have ha : a < 256 := h a (by simp)
    simp only [base64.EncodeToString, base64.decodeQuanta, and_self, if_true]
    rw [decodeMap_encodeStd _ (Nat.mod_lt _ (by omega)),
      decodeMap_encodeStd _ (Nat.mod_lt _ (by omega))]
    simp only [Option.some.injEq, List.cons.injEq, and_true]
    omega
  | case3 a b =>
    have ha : a < 256 := h a (by simp)
    have hb : b < 256 := h b (by simp)
    have h61 := (encodeStd_ne ((a * 65536 + b * 256) / 64 % 64)).1
    simp only [base64.EncodeToString, base64.decodeQuanta, and_self, if_true, h61, if_false]
    rw [decodeMap_encodeStd _ (Nat.mod_lt _ (by omega)),
      decodeMap_encodeStd _ (Nat.mod_lt _ (by omega)),
      decodeMap_encodeStd _ (Nat.mod_lt _ (by omega))]
    simp only [Option.some.injEq, List.cons.injEq, and_true]
    omega
  | case4 a b c rest ih =>
    have ha : a < 256 := h a (by simp)
    have hb : b < 256 := h b (by simp)
    have hc : c < 256 := h c (by simp)
    have h61 := (encodeStd_ne ((a * 65536 + b * 256 + c) % 64)).1
    simp only [base64.EncodeToString, base64.decodeQuanta, h61, false_and, if_false]
    rw [decodeMap_encodeStd _ (Nat.mod_lt _ (by omega)),
      decodeMap_encodeStd _ (Nat.mod_lt _ (by omega)),
      decodeMap_encodeStd _ (Nat.mod_lt _ (by omega)),
      decodeMap_encodeStd _ (Nat.mod_lt _ (by omega)),
      ih (fun x hx => h x (by simp [hx]))]
    simp only [Option.some.injEq, List.cons.injEq, and_true]
    omega

/-- Decoding the standard base64 encoding of a byte sequence gives the
sequence back. -/
theorem DecodeString_EncodeToString (bs : Bytes) (h : ∀ b ∈ bs, b < 256) :
    base64.DecodeString (base64.EncodeToString bs) = some bs := by
  unfold base64.DecodeString
  rw [List.filter_eq_self.mpr (EncodeToString_no_line_break bs)]
  exact decodeQuanta_EncodeToString bs h

/-! ## UTF-8: a decoded rune encodes to the bytes it was decoded from -/

/-- What `DecodeRune` found at the head of `p`, when it is a rune of more
than one byte: the rune, its width, and the bytes it was decoded from. -/
theorem DecodeRune_multibyte (b : Nat) (s : Bytes) (hb : 0x80 ≤ b)
    (hv : ¬((utf8.DecodeRune (b :: s)).1 = utf8.RuneError ∧ (utf8.DecodeRune (b :: s)).2 = 1)) :
    2 ≤ (utf8.DecodeRune (b :: s)).2 ∧
    (utf8.DecodeRune (b :: s)).2 ≤ (b :: s).length ∧
    utf8.EncodeRune (utf8.DecodeRune (b :: s)).1 = (b :: s).take (utf8.DecodeRune (b :: s)).2 ∧
    (∀ t, utf8.DecodeRune ((b :: s).take (utf8.DecodeRune (b :: s)).2 ++ t) =
      utf8.DecodeRune (b :: s)) ∧
    (∀ c ∈ (b :: s).take (utf8.DecodeRune (b :: s)).2, 0x80 ≤ c ∧ c < 256) ∧
    0x80 ≤ (utf8.DecodeRune (b :: s)).1 ∧
    ¬(0xD800 ≤ (utf8.DecodeRune (b :: s)).1 ∧ (utf8.DecodeRune (b :: s)).1 < 0xE000) := by
  have h1 : ¬ b < 0x80 := by omega
  by_cases h2 : b < 0xC2
  · simp [utf8.DecodeRune, h1, h2] at hv
  by_cases h3 : b < 0xE0
  · rcases s with _ | ⟨b1, t⟩
    · simp [utf8.DecodeRune, h1, h2, h3] at hv
    · by_cases h4 : 0x80 ≤ b1 ∧ b1 ≤ 0xBF
      · simp only [utf8.DecodeRune, h1, h2, h3, h4, if_true, if_false, and_self]
        refine ⟨by omega, by simp, ?_, ?_, ?_, by omega, by omega⟩
        · have e1 : ¬ (b % 32 * 64 + b1 % 64 ≤ 0x7F) := by omega
          have e2 : b % 32 * 64 + b1 % 64 ≤ 0x7FF := by omega
          simp only [utf8.EncodeRune, e1, e2, if_true, if_false, List.take]
          congr 1
          · omega
          · congr 1; omega
        · intro t'
          simp [utf8.DecodeRune, h1, h2, h3, h4]
        · simp only [List.take, List.forall_mem_cons]
          exact ⟨⟨by omega, by omega⟩, ⟨by omega, by omega⟩, by simp⟩
      · simp [utf8.DecodeRune, h1, h2, h3, h4] at hv
  by_cases h5 : b < 0xF0
  · rcases s with _ | ⟨b1, _ | ⟨b2, t⟩⟩
    · simp [utf8.DecodeRune, h1, h2, h3, h5] at hv
    · simp [utf8.DecodeRune, h1, h2, h3, h5] at hv
    · by_cases h4 : (if b = 0xE0 then 0xA0 else 0x80) ≤ b1 ∧ b1 ≤ (if b = 0xED then 0x9F else 0xBF)
      · by_cases h6 : 0x80 ≤ b2 ∧ b2 ≤ 0xBF
        · have h4a : (b = 0xE0 → 0xA0 ≤ b1) ∧ 0x80 ≤ b1 ∧ (b = 0xED → b1 ≤ 0x9F) ∧ b1 ≤ 0xBF := by
            split_ifs at h4 <;> omega
          simp only [utf8.DecodeRune, h1, h2, h3, h5, h4, h6, if_true, if_false, and_self]
          refine ⟨by omega, by simp, ?_, ?_, ?_, by omega, by omega⟩
          · have e1 : ¬ (b % 16 * 4096 + b1 % 64 * 64 + b2 % 64 ≤ 0x7F) := by omega
            have e2 : ¬ (b % 16 * 4096 + b1 % 64 * 64 + b2 % 64 ≤ 0x7FF) := by omega
            have e3 : ¬ (0x10FFFF < b % 16 * 4096 + b1 % 64 * 64 + b2 % 64 ∨
                (0xD800 ≤ b % 16 * 4096 + b1 % 64 * 64 + b2 % 64 ∧
                  b % 16 * 4096 + b1 % 64 * 64 + b2 % 64 ≤ 0xDFFF)) := by omega
            have e4 : b % 16 * 4096 + b1 % 64 * 64 + b2 % 64 ≤ 0xFFFF := by omega
            simp only [utf8.EncodeRune, e1, e2, e3, e4, if_true, if_false, List.take]
            congr 1
            · omega
            · congr 1
              · omega
              · congr 1; omega
          · intro t'
            simp [utf8.DecodeRune, h1, h2, h3, h5, h4, h6]
          · simp only [List.take, List.forall_mem_cons]
            exact ⟨⟨by omega, by omega⟩, ⟨by omega, by omega⟩, ⟨by omega, by omega⟩, by simp⟩
        · simp [utf8.DecodeRune, h1, h2, h3, h5, h4, h6] at hv
      · simp [utf8.DecodeRune, h1, h2, h3, h5, h4] at hv
  by_cases h7 : b < 0xF5
  · rcases s with _ | ⟨b1, _ | ⟨b2, _ | ⟨b3, t⟩⟩⟩
    · simp [utf8.DecodeRune, h1, h2, h3, h5, h7] at hv
    · simp [utf8.DecodeRune, h1, h2, h3, h5, h7] at hv
    · simp [utf8.DecodeRune, h1, h2, h3, h5, h7] at hv
    · by_cases h4 : (if b = 0xF0 then 0x90 else 0x80) ≤ b1 ∧ b1 ≤ (if b = 0xF4 then 0x8F else 0xBF)
      · by_cases h6 : 0x80 ≤ b2 ∧ b2 ≤ 0xBF
        · by_cases h8 : 0x80 ≤ b3 ∧ b3 ≤ 0xBF
          · have h4a : (b = 0xF0 → 0x90 ≤ b1) ∧ 0x80 ≤ b1 ∧ (b = 0xF4 → b1 ≤ 0x8F) ∧
                b1 ≤ 0xBF := by
              split_ifs at h4 <;> omega
            simp only [utf8.DecodeRune, h1, h2, h3, h5, h7, h4, h6, h8, if_true, if_false,
              and_self]
            refine ⟨by omega, by simp, ?_, ?_, ?_, by omega, by omega⟩
            · have e1 : ¬ (b % 8 * 262144 + b1 % 64 * 4096 + b2 % 64 * 64 + b3 % 64 ≤ 0x7F) := by
                omega
              have e2 : ¬ (b % 8 * 262144 + b1 % 64 * 4096 + b2 % 64 * 64 + b3 % 64 ≤ 0x7FF) := by
                omega
              have e3 : ¬ (0x10FFFF < b % 8 * 262144 + b1 % 64 * 4096 + b2 % 64 * 64 + b3 % 64 ∨
                  (0xD800 ≤ b % 8 * 262144 + b1 % 64 * 4096 + b2 % 64 * 64 + b3 % 64 ∧
                    b % 8 * 262144 + b1 % 64 * 4096 + b2 % 64 * 64 + b3 % 64 ≤ 0xDFFF)) := by
                omega
              have e4 : ¬ (b % 8 * 262144 + b1 % 64 * 4096 + b2 % 64 * 64 + b3 % 64 ≤ 0xFFFF) := by
                omega
              simp only [utf8.EncodeRune, e1, e2, e3, e4, if_true, if_false, List.take]
              congr 1
              · omega
              · congr 1
                · omega
                · congr 1
                  · omega
                  · congr 1; omega
            · intro t'
              simp [utf8.DecodeRune, h1, h2, h3, h5, h7, h4, h6, h8]
            · simp only [List.take, List.forall_mem_cons]
              exact ⟨⟨by omega, by omega⟩, ⟨by omega, by omega⟩, ⟨by omega, by omega⟩,
                ⟨by omega, by omega⟩, by simp⟩
          · simp [utf8.DecodeRune, h1, h2, h3, h5, h7, h4, h6, h8] at hv
        · simp [utf8.DecodeRune, h1, h2, h3, h5, h7, h4, h6] at hv
      · simp [utf8.DecodeRune, h1, h2, h3, h5, h7, h4] at hv
  · simp [utf8.DecodeRune, h1, h2, h3, h5, h7] at hv
/-! ## JSON strings: reading undoes writing -/

theorem hexValue_lowerhex (n : Nat) (h : n < 16) :
    json.hexValue (strconv.lowerhex n) = some n := by
  unfold json.hexValue strconv.lowerhex
  split_ifs <;> (congr 1; omega)

theorem emit_some (out s rest : Bytes) :
    json.emit out (some (s, rest)) = some (out ++ s, rest) := rfl

theorem getu4_hex (a b c d x y z w : Nat) (t : Bytes)
    (ha : json.hexValue a = some x) (hb : json.hexValue b = some y)
    (hc : json.hexValue c = some z) (hd : json.hexValue d = some w) :
    json.getu4 (92 :: 117 :: a :: b :: c :: d :: t) = some (((x * 16 + y) * 16 + z) * 16 + w) := by
  simp [json.getu4, ha, hb, hc, hd]

/-- Reading an escape `\uXXXX` of a rune that is no surrogate half. -/
theorem unquoteLoop_u4 (fuel a b c d rr : Nat) (t : Bytes)
    (hg : json.getu4 (92 :: 117 :: a :: b :: c :: d :: t) = some rr)
    (hns : ¬(0xD800 ≤ rr ∧ rr < 0xE000)) :
    json.unquoteLoop (fuel + 1) (92 :: 117 :: a :: b :: c :: d :: t) =
      json.emit (utf8.EncodeRune rr) (json.unquoteLoop fuel t) := by
  simp [json.unquoteLoop, hg, hns]

/-- Reading a byte that was written as it is. -/
theorem unquoteLoop_safe (fuel b : Nat) (x : Bytes) (h : json.htmlSafe b = true) :
    json.unquoteLoop (fuel + 1) (b :: x) = json.emit [b] (json.unquoteLoop fuel x) := by
  simp only [json.htmlSafe, Bool.and_eq_true, decide_eq_true_eq, bne_iff_ne, ne_eq] at h
  obtain ⟨⟨⟨⟨⟨⟨h1, h2⟩, h3⟩, h4⟩, _⟩, _⟩, _⟩ := h
  have h5 : ¬ b < 32 := by omega
  simp only [json.unquoteLoop, h3, h4, h5, h2, if_true, if_false]

/-- Reading an ASCII byte that was written escaped. -/
theorem unquoteLoop_escapeByte (fuel b : Nat) (x : Bytes) (hb : b < 0x80) :
    json.unquoteLoop (fuel + 1) (json.escapeByte b ++ x) =
      json.emit [b] (json.unquoteLoop fuel x) := by
  unfold json.escapeByte
  split_ifs with h1 h2 h3 h4 h5 h6
  · rcases h1 with rfl | rfl <;> simp [json.unquoteLoop, json.simpleEscape]
  · subst h2; simp [json.unquoteLoop, json.simpleEscape]
  · subst h3; simp [json.unquoteLoop, json.simpleEscape]
  · subst h4; simp [json.unquoteLoop, json.simpleEscape]
  · subst h5; simp [json.unquoteLoop, json.simpleEscape]
  · subst h6; simp [json.unquoteLoop, json.simpleEscape]
  · have e1 : json.hexValue (strconv.lowerhex (b / 16)) = some (b / 16) :=
      hexValue_lowerhex _ (by omega)
    have e2 : json.hexValue (strconv.lowerhex (b % 16)) = some (b % 16) :=
      hexValue_lowerhex _ (by omega)
    have e3 : json.hexValue 48 = some 0 := by decide
    have e4 : ((0 * 16 + 0) * 16 + b / 16) * 16 + b % 16 = b := by omega
    have e5 : ¬ (0xD800 ≤ b ∧ b < 0xE000) := by omega
    have e6 : b ≤ 0x7F := by omega
    have hg := getu4_hex 48 48 _ _ 0 0 _ _ x e3 e3 e1 e2
    rw [e4] at hg
    simp only [List.cons_append, List.nil_append]
    rw [unquoteLoop_u4 fuel _ _ _ _ b x hg e5]
    simp [utf8.EncodeRune, e6]


theorem escapeByte_length (b : Nat) : 2 ≤ (json.escapeByte b).length := by
  unfold json.escapeByte
  split_ifs <;> simp

theorem validLoop_ascii (n b : Nat) (s : Bytes) (hb : b < 0x80)
    (h : utf8.validLoop (n + 1) (b :: s) = true) : utf8.validLoop n s = true := by
  have hd : utf8.DecodeRune (b :: s) = (b, 1) := by simp [utf8.DecodeRune, hb]
  have hne : ¬ b = utf8.RuneError := by unfold utf8.RuneError; omega
  simpa [utf8.validLoop, hd, hne] using h

theorem validLoop_multibyte (n b : Nat) (s : Bytes)
    (h : utf8.validLoop (n + 1) (b :: s) = true) :
    ¬((utf8.DecodeRune (b :: s)).1 = utf8.RuneError ∧ (utf8.DecodeRune (b :: s)).2 = 1) ∧
    utf8.validLoop n ((b :: s).drop (utf8.DecodeRune (b :: s)).2) = true := by
  by_cases hc : (utf8.DecodeRune (b :: s)).1 = utf8.RuneError ∧ (utf8.DecodeRune (b :: s)).2 = 1
  · simp [utf8.validLoop, hc] at h
  · exact ⟨hc, by simpa [utf8.validLoop, hc] using h⟩

theorem take_cons_pos (b : Nat) (s : Bytes) (k : Nat) (hk : 1 ≤ k) :
    (b :: s).take k = b :: s.take (k - 1) := by
  cases k with
  | zero => omega
  | succ k => rfl

/-- Reading a byte outside ASCII: the rune it starts is decoded and encoded
again. -/
theorem unquoteLoop_multibyte (fuel c : Nat) (x : Bytes) (hc : 0x80 ≤ c) :
    json.unquoteLoop (fuel + 1) (c :: x) =
      json.emit (utf8.EncodeRune (utf8.DecodeRune (c :: x)).1)
        (json.unquoteLoop fuel ((c :: x).drop (utf8.DecodeRune (c :: x)).2)) := by
  have h1 : ¬ c = 34 := by omega
  have h2 : ¬ c = 92 := by omega
  have h3 : ¬ c < 32 := by omega
  have h4 : ¬ c < 128 := by omega
  simp only [json.unquoteLoop, h1, h2, h3, h4, if_false]

theorem appendStringLoop_separator (n b : Nat) (s : Bytes) (hb : ¬ b < 0x80)
    (hne : ¬((utf8.DecodeRune (b :: s)).1 = utf8.RuneError ∧ (utf8.DecodeRune (b :: s)).2 = 1))
    (hls : (utf8.DecodeRune (b :: s)).1 = 0x2028 ∨ (utf8.DecodeRune (b :: s)).1 = 0x2029) :
    json.appendStringLoop (n + 1) (b :: s) =
      92 :: 117 :: 50 :: 48 :: 50 :: strconv.lowerhex ((utf8.DecodeRune (b :: s)).1 % 16) ::
        json.appendStringLoop n ((b :: s).drop (utf8.DecodeRune (b :: s)).2) := by
  rw [json.appendStringLoop, if_neg hb, if_neg hne, if_pos hls]
  rfl

theorem appendStringLoop_copy (n b : Nat) (s : Bytes) (hb : ¬ b < 0x80)
    (hne : ¬((utf8.DecodeRune (b :: s)).1 = utf8.RuneError ∧ (utf8.DecodeRune (b :: s)).2 = 1))
    (hls : ¬((utf8.DecodeRune (b :: s)).1 = 0x2028 ∨ (utf8.DecodeRune (b :: s)).1 = 0x2029)) :
    json.appendStringLoop (n + 1) (b :: s) =
      (b :: s).take (utf8.DecodeRune (b :: s)).2 ++
        json.appendStringLoop n ((b :: s).drop (utf8.DecodeRune (b :: s)).2) := by
  rw [json.appendStringLoop, if_neg hb, if_neg hne, if_neg hls]

/-- Reading a string literal gives back the string it was written from, when
that string is valid UTF-8. -/
theorem unquoteLoop_appendStringLoop (n : Nat) :
    ∀ (s rest : Bytes) (fuel : Nat), s.length ≤ n → utf8.validLoop n s = true →
      (json.appendStringLoop n s).length < fuel →
      json.unquoteLoop fuel (json.appendStringLoop n s ++ 34 :: rest) = some (s, rest) := by
  induction n with
  | zero =>
    intro s rest fuel hlen _ hfuel
    have hs : s = [] := List.length_eq_zero.mp (Nat.le_zero.mp hlen)
    subst hs
    cases fuel with
    | zero => simp at hfuel
    | succ f => simp [json.appendStringLoop, json.unquoteLoop]
  | succ n ih =>
    intro s rest fuel hlen hvalid hfuel
    cases fuel with
    | zero => simp at hfuel
    | succ f =>
      cases s with
      | nil => simp [json.appendStringLoop, json.unquoteLoop]
      | cons b s =>
        have hlen1 : s.length ≤ n := by simpa using hlen
        by_cases hb : b < 0x80
        · have hv := validLoop_ascii n b s hb hvalid
          by_cases hsafe : json.htmlSafe b = true
          · have hf : (json.appendStringLoop n s).length < f := by
              simpa [json.appendStringLoop, hb, hsafe] using hfuel
            simp only [json.appendStringLoop, hb, hsafe, if_true, List.cons_append,
              List.nil_append]
            rw [unquoteLoop_safe f b _ hsafe, ih s rest f hlen1 hv hf]
            rfl
          · have hsafe1 : json.htmlSafe b = false := by simpa using hsafe
            have hf : (json.appendStringLoop n s).length < f := by
              have h2 := escapeByte_length b
              simp [json.appendStringLoop, hb, hsafe1] at hfuel
              omega
            simp only [json.appendStringLoop, hb, hsafe1, if_true, Bool.false_eq_true, if_false,
              List.append_assoc]
            rw [unquoteLoop_escapeByte f b _ hb, ih s rest f hlen1 hv hf]
            rfl
        · obtain ⟨hne, hv⟩ := validLoop_multibyte n b s hvalid
          obtain ⟨h2, hle, henc, hpre, hbytes, hr80, hsur⟩ :=
            DecodeRune_multibyte b s (by omega) hne
          have hdl : ((b :: s).drop (utf8.DecodeRune (b :: s)).2).length ≤ n := by
            simp only [List.length_drop, List.length_cons] at hle ⊢
            omega
          have htd : (b :: s).take (utf8.DecodeRune (b :: s)).2 ++
              (b :: s).drop (utf8.DecodeRune (b :: s)).2 = b :: s := List.take_append_drop _ _
          by_cases hls : (utf8.DecodeRune (b :: s)).1 = 0x2028 ∨
              (utf8.DecodeRune (b :: s)).1 = 0x2029
          · rw [appendStringLoop_separator n b s hb hne hls] at hfuel ⊢
            have hf : (json.appendStringLoop n
                ((b :: s).drop (utf8.DecodeRune (b :: s)).2)).length < f := by
              simp only [List.length_cons] at hfuel
              omega
            have hg : json.getu4 (92 :: 117 :: 50 :: 48 :: 50 ::
                strconv.lowerhex ((utf8.DecodeRune (b :: s)).1 % 16) ::
                (json.appendStringLoop n ((b :: s).drop (utf8.DecodeRune (b :: s)).2) ++
                  34 :: rest)) = some (utf8.DecodeRune (b :: s)).1 := by
              rw [getu4_hex 50 48 50 _ 2 0 2 ((utf8.DecodeRune (b :: s)).1 % 16) _
                (by decide) (by decide) (by decide) (hexValue_lowerhex _ (by omega))]
              congr 1
              omega
            simp only [List.cons_append]
            rw [unquoteLoop_u4 f _ _ _ _ _ _ hg hsur, ih _ rest f hdl hv hf, emit_some, henc, htd]
          · rw [appendStringLoop_copy n b s hb hne hls] at hfuel ⊢
            have hf : (json.appendStringLoop n
                ((b :: s).drop (utf8.DecodeRune (b :: s)).2)).length < f := by
              simp only [List.length_append, List.length_take] at hfuel
              omega
            simp only [List.append_assoc]
            have hcons : ∀ y : Bytes, (b :: s).take (utf8.DecodeRune (b :: s)).2 ++ y =
                b :: (s.take ((utf8.DecodeRune (b :: s)).2 - 1) ++ y) := by
              intro y
              rw [take_cons_pos b s _ (by omega)]
              rfl
            rw [hcons, unquoteLoop_multibyte f b _ (by omega), ← hcons, hpre,
              List.drop_left' (by simp only [List.length_take, List.length_cons] at hle ⊢; omega), ih _ rest f hdl hv hf, emit_some, henc, htd]


theorem scanString_appendString (s rest : Bytes) (hv : utf8.Valid s = true) :
    json.scanString (json.appendStringLoop s.length s ++ 34 :: rest) = some (s, rest) := by
  unfold json.scanString
  exact unquoteLoop_appendStringLoop s.length s rest _ (le_refl _) hv (by simp)

theorem skipSpace_cons (c : Nat) (s : Bytes) (h : json.isSpace c = false) :
    json.skipSpace (c :: s) = c :: s := by
  simp [json.skipSpace, h]

/-- A value that is a string literal, as `json.Marshal` writes a valid UTF-8
string. -/
theorem parseValue_appendString (fuel : Nat) (s rest : Bytes) (hv : utf8.Valid s = true) :
    json.parseValue (fuel + 1) (json.appendString s ++ rest) =
      some (json.Value.string s, rest) := by
  have h : json.appendString s ++ rest = 34 :: (json.appendStringLoop s.length s ++ 34 :: rest) := by
    simp [json.appendString]
  rw [h]
  simp [json.parseValue, skipSpace_cons 34 _ (by decide), scanString_appendString s rest hv]

/-- An object with at least one member. -/
theorem parseValue_object (fuel : Nat) (s : Bytes) :
    json.parseValue (fuel + 1) (123 :: 34 :: s) =
      (json.parseMembers (json.parseValue fuel) fuel (34 :: s)).map
        (fun p => (json.Value.object p.1, p.2)) := by
  simp [json.parseValue, skipSpace_cons 123 _ (by decide), skipSpace_cons 34 _ (by decide)]

/-- An array with at least one element, the first an object. -/
theorem parseValue_array (fuel : Nat) (s : Bytes) :
    json.parseValue (fuel + 1) (91 :: 123 :: s) =
      (json.parseElems (json.parseValue fuel) fuel (123 :: s)).map
        (fun p => (json.Value.array p.1, p.2)) := by
  simp [json.parseValue, skipSpace_cons 91 _ (by decide), skipSpace_cons 123 _ (by decide)]

/-- A member that is followed by another one. -/
theorem parseMembers_more (value : Bytes → Option (json.Value × Bytes)) (n : Nat)
    (s1 s3 s5 k : Bytes) (v : json.Value)
    (hk : json.scanString s1 = some (k, 58 :: s3)) (hv : value s3 = some (v, 44 :: 34 :: s5)) :
    json.parseMembers value (n + 1) (34 :: s1) =
      (json.parseMembers value n (34 :: s5)).map (fun p => ((k, v) :: p.1, p.2)) := by
  simp [json.parseMembers, hk, hv, skipSpace_cons 58 _ (by decide),
    skipSpace_cons 44 _ (by decide), skipSpace_cons 34 _ (by decide)]

/-- The last member of an object. -/
theorem parseMembers_last (value : Bytes → Option (json.Value × Bytes)) (n : Nat)
    (s1 s3 s5 k : Bytes) (v : json.Value)
    (hk : json.scanString s1 = some (k, 58 :: s3)) (hv : value s3 = some (v, 125 :: s5)) :
    json.parseMembers value (n + 1) (34 :: s1) = some ([(k, v)], s5) := by
  simp [json.parseMembers, hk, hv, skipSpace_cons 58 _ (by decide),
    skipSpace_cons 125 _ (by decide)]

theorem parseValue_Field (fuel : Nat) (f : Field) (rest : Bytes)
    (hn : utf8.Valid f.Name = true) (hv : utf8.Valid f.Value = true) :
    json.parseValue (fuel + 3) (f.Marshal ++ rest) = some (f.toValue, rest) := by
  have hkey1 : ∀ x : Bytes, json.scanString (ascii "name\":" ++ x) = some (ascii "name", 58 :: x) :=
    fun x => scanString_appendString (ascii "name") (58 :: x) (by decide)
  have hkey2 : ∀ x : Bytes, json.scanString (ascii "value\":" ++ x) = some (ascii "value", 58 :: x) :=
    fun x => scanString_appendString (ascii "value") (58 :: x) (by decide)
  have h1 : f.Marshal ++ rest = 123 :: 34 :: (ascii "name\":" ++ (json.appendString f.Name ++
      (44 :: 34 :: (ascii "value\":" ++ (json.appendString f.Value ++ 125 :: rest))))) := by
    simp only [Field.Marshal, List.append_assoc]
    rfl
  rw [h1, parseValue_object,
    parseMembers_more _ _ _ _ _ _ _ (hkey1 _) (parseValue_appendString _ _ _ hn),
    parseMembers_last _ _ _ _ _ _ _ (hkey2 _) (parseValue_appendString _ _ _ hv)]
  rfl


/-- The elements of the JSON array of a non-empty sequence of fields. -/
theorem parseElems_marshalFieldList (fuel : Nat) (f : Field) (vs : List Field) (rest : Bytes)
    (hvalid : ∀ g ∈ f :: vs, utf8.Valid g.Name = true ∧ utf8.Valid g.Value = true) :
    ∀ n, vs.length < n →
      json.parseElems (json.parseValue (fuel + 3)) n (marshalFieldList (f :: vs) ++ 93 :: rest) =
        some ((f :: vs).map Field.toValue, rest) := by
  induction vs generalizing f with
  | nil =>
    intro n hn
    cases n with
    | zero => simp at hn
    | succ n =>
      have hf := hvalid f (List.mem_cons_self f [])
      simp [json.parseElems, marshalFieldList, parseValue_Field fuel f _ hf.1 hf.2,
        skipSpace_cons 93 _ (by decide)]
  | cons g vs ih =>
    intro n hn
    cases n with
    | zero => simp at hn
    | succ n =>
      have hf := hvalid f (List.mem_cons_self f _)
      have hrest := ih g (fun x hx => hvalid x (List.mem_cons_of_mem f hx)) n
        (by simpa using hn)
      have h1 : marshalFieldList (f :: g :: vs) ++ 93 :: rest =
          f.Marshal ++ 44 :: (marshalFieldList (g :: vs) ++ 93 :: rest) := by
        simp [marshalFieldList]
      rw [h1]
      simp [json.parseElems, parseValue_Field fuel f _ hf.1 hf.2,
        skipSpace_cons 44 _ (by decide), hrest]

theorem Field_Marshal_length (f : Field) : 3 ≤ f.Marshal.length := by
  simp [Field.Marshal, ascii]

theorem marshalFieldList_length (vs : List Field) :
    3 * vs.length ≤ (marshalFieldList vs).length := by
  induction vs using marshalFieldList.induct with
  | case1 => simp
  | case2 f => simpa [marshalFieldList] using Field_Marshal_length f
  | case3 f g rest ih =>
    have h := Field_Marshal_length f
    simp only [marshalFieldList, List.length_append, List.length_cons] at ih ⊢
    omega

theorem Field_Marshal_head (f : Field) : ∃ t, f.Marshal = 123 :: 34 :: t := by
  refine ⟨ascii "name\":" ++ (json.appendString f.Name ++
      (44 :: 34 :: (ascii "value\":" ++ (json.appendString f.Value ++ [125])))), ?_⟩
  simp only [Field.Marshal, List.append_assoc]
  rfl

theorem Field_decode_toValue (f : Field) : Field.decode f.toValue = some f := by
  have h1 : json.keyIs (ascii "name") "name" = true := by decide
  have h2 : json.keyIs (ascii "value") "name" = false := by decide
  have h3 : json.keyIs (ascii "value") "value" = true := by decide
  simp [Field.decode, Field.toValue, decodeMembers, Field.setMember, h1, h2, h3, json.intoString]

theorem decodeAll_toValue (vs : List Field) :
    json.decodeAll Field.decode (vs.map Field.toValue) = some vs := by
  induction vs with
  | nil => rfl
  | cons f vs ih => simp [json.decodeAll, Field_decode_toValue, ih]

/-- Parsing the JSON array written for a sequence of fields that are valid
UTF-8 gives the sequence back. -/
theorem Unmarshal_marshalFields (vs : List Field)
    (hvalid : ∀ g ∈ vs, utf8.Valid g.Name = true ∧ utf8.Valid g.Value = true) :
    json.Unmarshal Field.decodeSlice (marshalFields vs) = Except.ok vs := by
  have hparse : json.parse (marshalFields vs) = some (json.Value.array (vs.map Field.toValue)) := by
    cases vs with
    | nil => rfl
    | cons f vs =>
      obtain ⟨t, ht⟩ := Field_Marshal_head f
      have hlen := marshalFieldList_length (f :: vs)
      have hfuel : ∃ k, (marshalFields (f :: vs)).length = k + 3 := by
        refine ⟨(marshalFields (f :: vs)).length - 3, ?_⟩
        simp only [marshalFields, List.length_cons, List.length_append] at hlen ⊢
        omega
      obtain ⟨k, hk⟩ := hfuel
      have hk2 : vs.length < k + 3 := by
        simp only [marshalFields, List.length_cons, List.length_append] at hlen hk
        omega
      have hel := parseElems_marshalFieldList k f vs [] hvalid (k + 3) hk2
      have hstart : ∃ u, marshalFieldList (f :: vs) ++ [93] = 123 :: u := by
        cases vs with
        | nil => exact ⟨34 :: t ++ [93], by simp [marshalFieldList, ht]⟩
        | cons g vs => exact ⟨34 :: t ++ 44 :: marshalFieldList (g :: vs) ++ [93], by
            simp [marshalFieldList, ht]⟩
      obtain ⟨u, hu⟩ := hstart
      have hpv : json.parseValue (k + 3 + 1) (marshalFields (f :: vs)) =
          some (json.Value.array ((f :: vs).map Field.toValue), []) := by
        have hm : marshalFields (f :: vs) = 91 :: (marshalFieldList (f :: vs) ++ [93]) := rfl
        rw [hm, hu, parseValue_array, ← hu, hel]
        rfl
      simp only [json.parse, hk, hpv]
      rfl
  simp [json.Unmarshal, hparse, Field.decodeSlice, decodeAll_toValue]


/-! ## Everything `json.Marshal` writes is a byte -/

theorem lowerhex_lt (n : Nat) (h : n < 16) : strconv.lowerhex n < 256 := by
  unfold strconv.lowerhex
  split_ifs <;> omega

theorem escapeByte_lt (b : Nat) (hb : b < 0x80) : ∀ c ∈ json.escapeByte b, c < 256 := by
  have h1 := lowerhex_lt (b / 16) (by omega)
  have h2 := lowerhex_lt (b % 16) (by omega)
  unfold json.escapeByte
  split_ifs <;> simp <;> omega

theorem appendStringLoop_lt (n : Nat) : ∀ s : Bytes, ∀ c ∈ json.appendStringLoop n s, c < 256 := by
  induction n with
  | zero =>
    intro s
    cases s <;> simp [json.appendStringLoop]
  | succ n ih =>
    intro s
    cases s with
    | nil => simp [json.appendStringLoop]
    | cons b s =>
      by_cases hb : b < 0x80
      · intro c hc
        simp only [json.appendStringLoop, hb, if_true, List.mem_append] at hc
        rcases hc with hc | hc
        · split_ifs at hc
          · simp only [List.mem_singleton] at hc
            omega
          · exact escapeByte_lt b hb c hc
        · exact ih s c hc
      · by_cases hne : (utf8.DecodeRune (b :: s)).1 = utf8.RuneError ∧
            (utf8.DecodeRune (b :: s)).2 = 1
        · intro c hc
          rw [json.appendStringLoop, if_neg hb, if_pos hne, List.mem_append] at hc
          rcases hc with hc | hc
          · have hall : ∀ x ∈ ascii "\\ufffd", x < 256 := by decide
            exact hall c hc
          · exact ih s c hc
        · obtain ⟨_, _, _, _, hbytes, _, _⟩ := DecodeRune_multibyte b s (by omega) hne
          by_cases hls : (utf8.DecodeRune (b :: s)).1 = 0x2028 ∨
              (utf8.DecodeRune (b :: s)).1 = 0x2029
          · intro c hc
            rw [appendStringLoop_separator n b s hb hne hls] at hc
            have h3 := lowerhex_lt ((utf8.DecodeRune (b :: s)).1 % 16) (by omega)
            simp only [List.mem_cons] at hc
            rcases hc with rfl | rfl | rfl | rfl | rfl | rfl | hc
            · omega
            · omega
            · omega
            · omega
            · omega
            · exact h3
            · exact ih _ c hc
          · intro c hc
            rw [appendStringLoop_copy n b s hb hne hls, List.mem_append] at hc
            rcases hc with hc | hc
            · exact (hbytes c hc).2
            · exact ih _ c hc

theorem appendString_lt (s : Bytes) : ∀ c ∈ json.appendString s, c < 256 := by
  intro c hc
  simp only [json.appendString, List.mem_cons, List.mem_append, List.mem_singleton,
    List.not_mem_nil, or_false] at hc
  rcases hc with (rfl | hc) | rfl
  · omega
  · exact appendStringLoop_lt _ s c hc
  · omega

theorem Field_Marshal_lt (f : Field) : ∀ c ∈ f.Marshal, c < 256 := by
  intro c hc
  have h1 : ∀ x ∈ ascii "\x7b\"name\":", x < 256 := by decide
  have h2 : ∀ x ∈ ascii ",\"value\":", x < 256 := by decide
  have h3 : ∀ x ∈ ascii "\x7d", x < 256 := by decide
  simp only [Field.Marshal, List.mem_append] at hc
  rcases hc with (((hc | hc) | hc) | hc) | hc
  · exact h1 c hc
  · exact appendString_lt _ c hc
  · exact h2 c hc
  · exact appendString_lt _ c hc
  · exact h3 c hc

theorem marshalFieldList_lt (vs : List Field) : ∀ c ∈ marshalFieldList vs, c < 256 := by
  induction vs using marshalFieldList.induct with
  | case1 => simp [marshalFieldList]
  | case2 f => simpa [marshalFieldList] using Field_Marshal_lt f
  | case3 f g rest ih =>
    intro c hc
    simp only [marshalFieldList, List.mem_append, List.mem_cons] at hc
    rcases hc with hc | rfl | hc
    · exact Field_Marshal_lt f c hc
    · omega
    · exact ih c hc

theorem marshalFields_lt (vs : List Field) : ∀ c ∈ marshalFields vs, c < 256 := by
  intro c hc
  simp only [marshalFields, List.mem_cons, List.mem_append, List.mem_singleton,
    List.not_mem_nil, or_false] at hc
  rcases hc with (rfl | hc) | rfl
  · omega
  · exact marshalFieldList_lt vs c hc
  · omega

theorem Unmarshal_of_DecodeBitwardenOut (stdout : Bytes) (out : BitwardenItemOut)
    (h : DecodeBitwardenOut stdout = Result.ok out) :
    json.Unmarshal BitwardenItemOut.decode stdout = Except.ok out := by
  unfold DecodeBitwardenOut at h
  split at h
  · simp at h
  · simp only [Result.ok.injEq] at h
    subst h
    assumption

/-- C4 (amended). If the output is the JSON of a wire record with a non-null
id, a name and, as notes, the base64 of the JSON array of the fields `vs`,
and every field name and value of `vs` is valid UTF-8, then `DecodeItem`
succeeds and returns the item with that id and name whose values are `vs`, in
content and order. -/
theorem DecodeItem_undoes_encoding (stdout id name : Bytes) (vs : List Field)
    (hrec : DecodeBitwardenOut stdout =
      Result.ok ⟨some id, name, base64.EncodeToString (marshalFields vs)⟩)
    (hvalid : ∀ f ∈ vs, utf8.Valid f.Name = true ∧ utf8.Valid f.Value = true) :
    DecodeItem stdout = Result.ok ⟨id, name, vs, none⟩ := by
  simp only [DecodeItem, Unmarshal_of_DecodeBitwardenOut stdout _ hrec,
    DecodeString_EncodeToString _ (marshalFields_lt vs), Unmarshal_marshalFields vs hvalid]

set_option maxRecDepth 100000 in
theorem DecodeItem_undoes_encoding_witness :
    DecodeItem itemJSON =
      Result.ok ⟨ascii "6fe3bf5f-d418-4bc1-b34d-ad2f011a31e2", ascii "test", keyPair, none⟩ :=
  DecodeItem_undoes_encoding itemJSON (ascii "6fe3bf5f-d418-4bc1-b34d-ad2f011a31e2")
    (ascii "test") keyPair (by decide) (by decide)

set_option maxRecDepth 100000 in
/-- C4, as stated, fails for a field that is no valid UTF-8: the record
`binaryItemJSON` carries an id, a name and, as notes, the base64 of the JSON
array of `[binaryField]`, whose value is the byte 0xFF; `DecodeItem` succeeds
and returns the value U+FFFD, the three bytes EF BF BD, not the byte 0xFF. -/
theorem DecodeItem_undoes_encoding_counterexample :
    DecodeBitwardenOut binaryItemJSON =
      Result.ok ⟨some (ascii "1"), ascii "t",
        base64.EncodeToString (marshalFields [binaryField])⟩ ∧
    DecodeItem binaryItemJSON =
      Result.ok ⟨ascii "1", ascii "t", [⟨ascii "k", [0xEF, 0xBF, 0xBD]⟩], none⟩ ∧
    [(⟨ascii "k", [0xEF, 0xBF, 0xBD]⟩ : Field)] ≠ [binaryField] := by
  decide

/-! ## A record without an id -/

theorem decodeItemsLoop_panic_iff (outs : List BitwardenItemOut) :
    ∀ acc, decodeItemsLoop outs acc = Result.panic ↔ ∃ o ∈ outs, o.ID = none := by
  induction outs with
  | nil => intro acc; simp [decodeItemsLoop]
  | cons o outs ih =>
    intro acc
    cases hid : o.ID with
    | none => simp [decodeItemsLoop, hid]
    | some id => simp [decodeItemsLoop, hid, ih]

theorem DecodeBitwardenOuts_not_panic (stdout : Bytes) :
    DecodeBitwardenOuts stdout ≠ Result.panic := by
  unfold DecodeBitwardenOuts
  split <;> simp

/-- `DecodeItems` panics exactly when the output decodes to wire records one
of which has no id. -/
theorem DecodeItems_panic_iff (stdout : Bytes) :
    DecodeItems stdout = Result.panic ↔
      ∃ outs, DecodeBitwardenOuts stdout = Result.ok outs ∧ ∃ o ∈ outs, o.ID = none := by
  unfold DecodeItems
  rcases h : DecodeBitwardenOuts stdout with outs | e | _
  · simp [decodeItemsLoop_panic_iff]
  · simp
  · exact absurd h (DecodeBitwardenOuts_not_panic stdout)

/-- `DecodeItem` panics exactly when the output decodes to a wire record with
no id whose notes are well-formed base64. -/
theorem DecodeItem_panic_iff (stdout : Bytes) :
    DecodeItem stdout = Result.panic ↔
      ∃ tmp, DecodeBitwardenOut stdout = Result.ok tmp ∧ tmp.ID = none ∧
        (base64.DecodeString tmp.Notes).isSome = true := by
  unfold DecodeItem DecodeBitwardenOut
  rcases h : json.Unmarshal BitwardenItemOut.decode stdout with e | tmp
  · simp
  · simp only [Result.ok.injEq, exists_eq_left']
    rcases hn : base64.DecodeString tmp.Notes with _ | raw
    · simp
    · rcases hid : tmp.ID with _ | id
      · simp
      · simp only [Option.isSome_some, and_true]
        split <;> simp

set_option maxRecDepth 100000 in
/-- C11, the code at the failing inputs.  The list `[{"name":"x"}]`, the list
whose record has a null id and the record `{"name":"x","notes":"W10="}` are
valid JSON and decode to wire records without an id; `DecodeItems` and
`DecodeItem` then dereference the nil id and panic: they return neither a
result nor an error. -/
theorem DecodeItems_DecodeItem_panic_on_absent_id :
    DecodeBitwardenOuts listWithoutID = Result.ok [⟨none, ascii "x", []⟩] ∧
    DecodeItems listWithoutID = Result.panic ∧
    DecodeBitwardenOuts listWithNullID = Result.ok [⟨none, ascii "x", []⟩] ∧
    DecodeItems listWithNullID = Result.panic ∧
    DecodeBitwardenOut itemWithoutID = Result.ok ⟨none, ascii "x", ascii "W10="⟩ ∧
    base64.DecodeString (ascii "W10=") = some (ascii "[]") ∧
    DecodeItem itemWithoutID = Result.panic := by
  decide

end SshManager
